import Mathlib

set_option maxRecDepth 10000

/-!
Verification of a decision-tree induction library (ARFF reader, entropy-based
attribute selection, recursive tree building, chi-squared pruning policy).

The Python source is shallowly embedded:
* a Python example dict becomes an association list `Example`;
* `DecisionTree` objects (attr / branches-dict / is_leaf_node / value) become
  the inductive `DecisionTree` with `node` and `leaf` constructors, branch
  dictionaries being insertion-ordered association lists;
* functions returning either a bare label string or a tree (Python duck
  typing) return the sum type `DTResult`;
* Python `set` iteration (over attribute values) is modelled as first-
  encounter-order deduplication, a fixed deterministic order;
* the recursion of `decision_tree_learning` (bounded by the length of the
  attribute list, which shrinks at every recursive call) is realised through
  a structural fuel parameter initialised to `attributes.length`;
* importance functions score into an arbitrary linear order `α`
  (instantiated with `ℕ`, `ℚ`, `String` or `ℝ` as the policy requires);
* raising an exception becomes returning the `Except.error` of a value that
  carries exactly the data interpolated into the exception's message.
-/

set_option autoImplicit false

namespace DecisionTrees

/-- A Python example dict `{attr: value, ...}`, as an insertion-ordered
association list. -/
abbrev Example := List (String × String)

/-- Python dict lookup returning `None` when absent: `e.get(a)`. -/
def elookup : Example → String → Option String
  | [], _ => none
  | (k, v) :: rest, a => if k = a then some v else elookup rest a

/-- Python `e[a]` (direct indexing). Indexing a missing key raises `KeyError`
in Python; the embedding returns `""` there, and theorems that depend on the
distinction carry an explicit "key present" hypothesis. -/
def eget (e : Example) (a : String) : String := (elookup e a).getD ""

/-- `e["classification"]`. -/
def classificationOf (e : Example) : String := eget e "classification"

/-- Insertion-ordered dict update `d[k] = v`: replaces the value of an
existing key in place, otherwise appends the new pair at the end. -/
def odInsert {β : Type} : List (String × β) → String → β → List (String × β)
  | [], k, v => [(k, v)]
  | (k', v') :: rest, k, v =>
    if k' = k then (k, v) :: rest else (k', v') :: odInsert rest k v

/-- Keep the first occurrence of every element, dropping later duplicates. -/
def dedupFirstAux (seen : List String) : List String → List String
  | [] => []
  | x :: xs => if x ∈ seen then dedupFirstAux seen xs else x :: dedupFirstAux (x :: seen) xs

/-- The distinct elements of a list in first-encounter order: the model of
building a Python `set` from the list, with a deterministic iteration order. -/
def dedupFirst (l : List String) : List String := dedupFirstAux [] l

/-- `get_attribute_values(attr, examples)`: the set of values the attribute
takes among the examples (`set([e[attr] for e in examples])`). -/
def get_attribute_values (attr : String) (examples : List Example) : List String :=
  dedupFirst (examples.map (fun e => eget e attr))

/-- Multiplicity of `x` in `labels`: one entry of a Python `Counter`. -/
def countLabel (labels : List String) (x : String) : Nat :=
  (labels.filter (fun y => y = x)).length

/-- `Counter(labels).items()`: (label, count) pairs in first-encounter order
of the labels, the insertion order of the underlying dict. -/
def counterItems (labels : List String) : List (String × Nat) :=
  (dedupFirst labels).map (fun l => (l, countLabel labels l))

/-- Python `max` over a nonempty list of (label, count) pairs compared by
count, returning the first element attaining the maximum (the `n=1` path of
`Counter.most_common`). -/
def pyFirstMaxCount (x : String × Nat) (xs : List (String × Nat)) : String × Nat :=
  xs.foldl (fun b y => if y.2 > b.2 then y else b) x

/-- `plurality_value(examples)`: the most common classification, ties broken
by the label first encountered. `Counter(...).most_common(1)[0][0]` raises
`IndexError` on an empty example list; the embedding returns `""` there. -/
def plurality_value (examples : List Example) : String :=
  match counterItems (examples.map classificationOf) with
  | [] => ""
  | x :: xs => (pyFirstMaxCount x xs).1

/-- `examples_have_same_classification(examples)`. The Python code returns
`True` for a singleton and otherwise compares every later element against
`examples[0]`; an empty list also yields `True` (the loop body never runs). -/
def examples_have_same_classification (examples : List Example) : Bool :=
  match examples with
  | [] => true
  | e :: rest => rest.all (fun a => classificationOf a = classificationOf e)

/-- `basic_importance(attr, examples) = 1`. -/
def basic_importance (_attr : String) (_examples : List Example) : ℕ := 1

/-- A trained tree: `node` is a `DecisionTree` object with `is_leaf_node =
False` (split attribute plus insertion-ordered branch dict), `leaf` one with
`is_leaf_node = True` (bare classification value). -/
inductive DecisionTree : Type where
  | node (attr : String) (branches : List (String × DecisionTree)) : DecisionTree
  | leaf (value : String) : DecisionTree

mutual

def decEqDT : (a b : DecisionTree) → Decidable (a = b)
  | .leaf v, .leaf w =>
    if h : v = w then .isTrue (by rw [h]) else .isFalse (by simp [h])
  | .node a bs, .node a' bs' =>
    if h : a = a' then
      match decEqBranches bs bs' with
      | .isTrue h2 => .isTrue (by rw [h, h2])
      | .isFalse h2 => .isFalse (by simp [h2])
    else .isFalse (by simp [h])
  | .leaf _, .node _ _ => .isFalse (by simp)
  | .node _ _, .leaf _ => .isFalse (by simp)

def decEqBranches : (a b : List (String × DecisionTree)) → Decidable (a = b)
  | [], [] => .isTrue rfl
  | (k, t) :: r, (k', t') :: r' =>
    if h : k = k' then
      match decEqDT t t', decEqBranches r r' with
      | .isTrue h2, .isTrue h3 => .isTrue (by rw [h, h2, h3])
      | .isFalse h2, _ => .isFalse (by simp [h2])
      | _, .isFalse h3 => .isFalse (by simp [h3])
    else .isFalse (by simp [h])
  | [], _ :: _ => .isFalse (by simp)
  | _ :: _, [] => .isFalse (by simp)

end

instance : DecidableEq DecisionTree := decEqDT

/-- What `decision_tree_learning` returns: either a bare classification label
(Python `str`) or a `DecisionTree` object. -/
inductive DTResult : Type where
  | label (v : String) : DTResult
  | tree (t : DecisionTree) : DTResult
deriving DecidableEq

/-- The coercion inside `add_branch`: a `DecisionTree` argument is attached
as is, any other value (a bare label) is wrapped in a fresh leaf node. -/
def toSubtree : DTResult → DecisionTree
  | .tree t => t
  | .label v => .leaf v

/-- `DecisionTree.add_branch(vk, subtree)`: `self.branches[vk] = ...` on the
branch dict. Called on a node; on a leaf the Python object would record the
branch but evaluation and rendering ignore it, so the leaf is returned
unchanged. -/
def DecisionTree.add_branch (t : DecisionTree) (vk : String) (subtree : DTResult) :
    DecisionTree :=
  match t with
  | .node a bs => .node a (odInsert bs vk (toSubtree subtree))
  | .leaf v => .leaf v

/-- Python `max` over a nonempty list `x :: xs` of scores. -/
def pyListMax {α : Type} [LinearOrder α] (x : α) (xs : List α) : α := xs.foldl max x

/-- The argmax step of the engine:
`imp = [importance_function(a, examples) for a in attributes]` followed by
`attributes[imp.index(max(imp))]` — the first attribute attaining the
maximal score. (On an empty attribute list, never reached, returns `""`.) -/
def chooseAttr {α : Type} [LinearOrder α] [DecidableEq α]
    (imp : String → List Example → α) (attributes : List String)
    (examples : List Example) : String :=
  match attributes with
  | [] => ""
  | a :: as =>
    let scores := (a :: as).map (fun b => imp b examples)
    let m := pyListMax (imp a examples) (as.map (fun b => imp b examples))
    (a :: as).getD (scores.findIdx (fun x => decide (x = m))) ""

/-- The body of `decision_tree_learning`, with a structural fuel parameter
bounding the recursion depth. Every recursive call of the Python function
strictly shrinks the attribute list, so running the fuel version at fuel
`attributes.length` (see `decision_tree_learning`) never reaches the
out-of-fuel branch; `dtlFuel_irrel` makes that precise. -/
def dtlFuel {α : Type} [LinearOrder α] [DecidableEq α] (fuel : Nat)
    (examples : List Example) (attributes : List String)
    (parent_examples : List Example)
    (importance_function : String → List Example → α) : DTResult :=
  if examples = [] then .label (plurality_value parent_examples)
  else if examples_have_same_classification examples then
    .label (classificationOf (examples.headD []))
  else if attributes = [] then .label (plurality_value examples)
  else
    match fuel with
    | 0 => .label ""
    | fuel' + 1 =>
      let A := chooseAttr importance_function attributes examples
      let att := attributes.filter (fun a => decide (a ≠ A))
      .tree ((get_attribute_values A examples).foldl
        (fun t vk => t.add_branch vk
          (dtlFuel fuel' (examples.filter (fun e => decide (elookup e A = some vk)))
            att examples importance_function))
        (.node A []))

/-- `decision_tree_learning(examples, attributes, parent_examples,
importance_function)`: figure 18.5 of AIMA. The fuel `attributes.length`
dominates the recursion depth. -/
def decision_tree_learning {α : Type} [LinearOrder α] [DecidableEq α]
    (examples : List Example) (attributes : List String)
    (parent_examples : List Example)
    (importance_function : String → List Example → α) : DTResult :=
  dtlFuel attributes.length examples attributes parent_examples importance_function

/-- The number of examples classified `c`
(`len([1 for e in examples if e["classification"] == c])`). -/
def countClass (examples : List Example) (c : String) : Nat :=
  (examples.filter (fun e => decide (classificationOf e = c))).length

/-- The binary entropy function `B(q)`: `0` at `q = 0` and `q = 1` (the two
guarded singular points), otherwise `-(q·log2 q + (1-q)·log2(1-q))`. Floats
are modelled as real numbers. -/
noncomputable def B (q : ℝ) : ℝ :=
  if q = 0 ∨ q = 1 then 0 else -(q * Real.logb 2 q + (1 - q) * Real.logb 2 (1 - q))

/-- `entropy_importance(attr, examples)`: binary information gain. `p`/`n`
count the `"Yes"`/`"No"` classifications; the remainder sums, over the values
`d` of the attribute, the subset-weighted binary entropy of the subset of
examples whose attribute equals `d`. -/
noncomputable def entropy_importance (attr : String) (examples : List Example) : ℝ :=
  let p : ℝ := countClass examples "Yes"
  let n : ℝ := countClass examples "No"
  let remainder : ℝ := ((get_attribute_values attr examples).map (fun d =>
    let subset := examples.filter (fun e => decide (eget e attr = d))
    let pk : ℝ := countClass subset "Yes"
    let nk : ℝ := countClass subset "No"
    (pk + nk) / (p + n) * B (pk / (pk + nk)))).sum
  B (p / (p + n)) - remainder

/-- `generalised_B(q, b) = -q·log_b(q)`, `0` at the guarded points `q = 0`
and `q = 1` (`math.log(q, b)` is the base-`b` logarithm). -/
noncomputable def generalised_B (q b : ℝ) : ℝ :=
  if q = 0 ∨ q = 1 then 0 else -(q * Real.logb b q)

/-- `generalised_entropy_importance(attr, examples, classes)`: multiclass
information gain with logarithm base `len(classes)`. -/
noncomputable def generalised_entropy_importance (attr : String)
    (examples : List Example) (classes : List String) : ℝ :=
  let outcomes : List Nat := classes.map (fun c => countClass examples c)
  let total_entropy : ℝ := (outcomes.map (fun p =>
    generalised_B ((p : ℝ) / (examples.length : ℝ)) (classes.length : ℝ))).sum
  let remainder : ℝ := ((get_attribute_values attr examples).map (fun d =>
    let subset := examples.filter (fun e => decide (eget e attr = d))
    let outcomes_k : List Nat := classes.map (fun c => countClass subset c)
    (outcomes_k.map (fun pk =>
      ((outcomes_k.sum : ℝ) / (outcomes.sum : ℝ))
        * generalised_B ((pk : ℝ) / (outcomes_k.sum : ℝ)) (classes.length : ℝ))).sum)).sum
  total_entropy - remainder

/-- `multiclass_decision_tree_learning(examples, attributes, parent_examples,
classes)`: the same figure-18.5 recursion with the selection policy
hard-wired to `generalised_entropy_importance` over the fixed class list. -/
noncomputable def multiclass_decision_tree_learning (examples : List Example)
    (attributes : List String) (parent_examples : List Example)
    (classes : List String) : DTResult :=
  dtlFuel attributes.length examples attributes parent_examples
    (fun a exs => generalised_entropy_importance a exs classes)

/-! ### Pruning policy (`should_prune`) -/

/-- The confidence level used when pruning (`CUTOFF = 0.05`). -/
def CUTOFF : ℚ := 1/20

/-- The observed-count list built by the `should_prune` loop: for each
distinct value `d` of the attribute (in observation order) it appends `pk`
(positives in the subset with that value) then `nk` (negatives), giving
`2·k` cells for `k` distinct values. Counts are embedded into `ℚ`, the
field in which scipy's float arithmetic is modelled. -/
def pruneObs (attr : String) (examples : List Example) : List ℚ :=
  (get_attribute_values attr examples).flatMap (fun d =>
    [(countClass (examples.filter (fun e => decide (eget e attr = d))) "Yes" : ℚ),
     (countClass (examples.filter (fun e => decide (eget e attr = d))) "No" : ℚ)])

/-- The expected-count list of the same loop: `pk_hat = p·(pk+nk)/(p+n)` and
`nk_hat = n·(pk+nk)/(p+n)`, the independence expectations
(row total × column total / grand total). -/
def pruneExp (attr : String) (examples : List Example) : List ℚ :=
  (get_attribute_values attr examples).flatMap (fun d =>
    [(countClass examples "Yes" : ℚ)
        * ((countClass (examples.filter (fun e => decide (eget e attr = d))) "Yes" : ℚ)
          + (countClass (examples.filter (fun e => decide (eget e attr = d))) "No" : ℚ))
        / ((countClass examples "Yes" : ℚ) + (countClass examples "No" : ℚ)),
     (countClass examples "No" : ℚ)
        * ((countClass (examples.filter (fun e => decide (eget e attr = d))) "Yes" : ℚ)
          + (countClass (examples.filter (fun e => decide (eget e attr = d))) "No" : ℚ))
        / ((countClass examples "Yes" : ℚ) + (countClass examples "No" : ℚ))])

/-- Modelled from the spec: `scipy.stats.chisquare(f_obs, f_exp, ddof)` is
external library code, not part of this repository. Per its documented
contract the statistic is `sum((obs - exp)^2 / exp)`. (Rational division by
zero yields `0` here; the cells relevant to the claims have nonzero
expectations.) -/
def chisquareStat (obs exp : List ℚ) : ℚ :=
  ((obs.zip exp).map (fun oe => (oe.1 - oe.2)^2 / oe.2)).sum

/-- Modelled from the spec: `scipy.stats.chisquare` computes its p-value with
`k - 1 - ddof` degrees of freedom where `k = len(f_obs)` (natural-number
subtraction mirrors the saturation irrelevant here since `k ≥ 1 + ddof` in
every use). -/
def chisquareDof (numObs ddof : Nat) : Nat := numObs - 1 - ddof

/-- Modelled from the spec: the p-value returned by `scipy.stats.chisquare` —
the chi-squared survival function, abstracted as the parameter `sf`
(a transcendental real function whose analytic form plays no role in the
claims), applied to the statistic and the degrees of freedom. -/
def chisquarePValue (sf : ℚ → Nat → ℚ) (obs exp : List ℚ) (ddof : Nat) : ℚ :=
  sf (chisquareStat obs exp) (chisquareDof obs.length ddof)

/-- `should_prune(attr, examples)`: build the observed/expected tables, call
`chisquare(obs, f_exp=exp, ddof=len(attrs) - 1)` where `attrs` is the set of
distinct attribute values, and prune exactly when the returned p-value
exceeds `CUTOFF`. -/
def should_prune (sf : ℚ → Nat → ℚ) (attr : String) (examples : List Example) : Bool :=
  decide (chisquarePValue sf (pruneObs attr examples) (pruneExp attr examples)
    ((get_attribute_values attr examples).length - 1) > CUTOFF)

theorem pruneObs_length (attr : String) (examples : List Example) :
    (pruneObs attr examples).length = 2 * (get_attribute_values attr examples).length := by
  rw [pruneObs]
  induction get_attribute_values attr examples with
  | nil => simp
  | cons x xs ih => simp_all [List.flatMap_cons]; omega

/-! ### Facts about the argmax step -/

theorem self_le_pyListMax {α : Type} [LinearOrder α] :
    ∀ (xs : List α) (x : α), x ≤ pyListMax x xs
  | [], _ => le_refl _
  | z :: zs, x => le_trans (le_max_left x z) (self_le_pyListMax zs (max x z))

theorem pyListMax_mem {α : Type} [LinearOrder α] :
    ∀ (xs : List α) (x : α), pyListMax x xs ∈ x :: xs
  | [], x => by simp [pyListMax]
  | z :: zs, x => by
    have ih := pyListMax_mem zs (max x z)
    have hm : pyListMax x (z :: zs) = pyListMax (max x z) zs := rfl
    rcases List.mem_cons.mp ih with h | h
    · rcases max_choice x z with h1 | h1 <;> rw [hm, h, h1] <;> simp
    · rw [hm]
      exact List.mem_cons_of_mem _ (List.mem_cons_of_mem _ h)

theorem le_pyListMax {α : Type} [LinearOrder α] :
    ∀ (xs : List α) (x y : α), y ∈ x :: xs → y ≤ pyListMax x xs
  | [], x, y, h => by
    simp only [List.mem_singleton] at h
    simp [pyListMax, h]
  | z :: zs, x, y, h => by
    have hm : pyListMax x (z :: zs) = pyListMax (max x z) zs := rfl
    rw [hm]
    rcases List.mem_cons.mp h with h1 | h1
    · subst h1
      exact le_trans (le_max_left y z) (self_le_pyListMax zs _)
    · rcases List.mem_cons.mp h1 with h2 | h2
      · subst h2
        exact le_trans (le_max_right x y) (self_le_pyListMax zs _)
      · exact le_pyListMax zs (max x z) y (List.mem_cons_of_mem _ h2)

/-- The attribute picked by `attributes[imp.index(max(imp))]` belongs to the
candidate list and its score bounds every candidate's score: the stable
argmax contract. -/
theorem chooseAttr_spec {α : Type} [LinearOrder α] [DecidableEq α]
    (imp : String → List Example → α) (attributes : List String)
    (examples : List Example) (h : attributes ≠ []) :
    chooseAttr imp attributes examples ∈ attributes ∧
      ∀ b ∈ attributes, imp b examples ≤ imp (chooseAttr imp attributes examples) examples := by
  match attributes with
  | [] => exact absurd rfl h
  | a :: as =>
    set f : String → α := fun b => imp b examples with hf
    have hscores : (a :: as).map f = f a :: as.map f := by simp
    set m := pyListMax (f a) (as.map f) with hmdef
    have hmmem : m ∈ (a :: as).map f := by
      rw [hscores]
      exact pyListMax_mem _ _
    have hex : ∃ x ∈ (a :: as).map f, decide (x = m) = true := ⟨m, hmmem, by simp⟩
    have hidx : ((a :: as).map f).findIdx (fun x => decide (x = m)) < ((a :: as).map f).length :=
      List.findIdx_lt_length_of_exists hex
    have hlen : ((a :: as).map f).length = (a :: as).length := List.length_map _ _
    have hidx' : ((a :: as).map f).findIdx (fun x => decide (x = m)) < (a :: as).length := by
      rwa [hlen] at hidx
    have hchoose : chooseAttr imp (a :: as) examples =
        (a :: as)[((a :: as).map f).findIdx (fun x => decide (x = m))] := by
      show (a :: as).getD (((a :: as).map f).findIdx (fun x => decide (x = m))) "" = _
      exact List.getD_eq_getElem _ _ hidx'
    constructor
    · rw [hchoose]
      exact List.getElem_mem _
    · intro b hb
      have hsc : decide (((a :: as).map f)[((a :: as).map f).findIdx
          (fun x => decide (x = m))] = m) = true :=
        List.findIdx_getElem (w := hidx)
      have hscm : f ((a :: as)[((a :: as).map f).findIdx (fun x => decide (x = m))]) = m := by
        have := of_decide_eq_true hsc
        rwa [List.getElem_map] at this
      have hble : f b ≤ m := by
        apply le_pyListMax
        rw [← hscores]
        exact List.mem_map_of_mem f hb
      rw [hchoose]
      show f b ≤ f _
      rw [hscm]
      exact hble

/-- Removing a present element strictly shortens the list: removing the
chosen attribute shrinks the candidate list at every recursive call. -/
theorem length_filter_ne_lt {a : String} {l : List String} (h : a ∈ l) :
    (l.filter (fun x => decide (x ≠ a))).length < l.length := by
  induction l with
  | nil => simp at h
  | cons x xs ih =>
    by_cases hx : x = a
    · subst hx
      rw [List.filter_cons, if_neg (by simp)]
      simp only [List.length_cons]
      exact Nat.lt_succ_of_le (List.length_filter_le _ _)
    · have h1 : a ∈ xs := by
        rcases List.mem_cons.mp h with h2 | h2
        · exact absurd h2.symm hx
        · exact h2
      rw [List.filter_cons, if_pos (by simp [hx])]
      simp only [List.length_cons]
      exact Nat.succ_lt_succ (ih h1)

/-! ### Facts about first-encounter deduplication and ordered dicts -/

theorem mem_dedupFirstAux :
    ∀ (l seen : List String) (x : String), x ∈ dedupFirstAux seen l ↔ x ∈ l ∧ x ∉ seen
  | [], seen, x => by simp [dedupFirstAux]
  | y :: ys, seen, x => by
    by_cases hy : y ∈ seen
    · rw [dedupFirstAux, if_pos hy, mem_dedupFirstAux ys seen x]
      constructor
      · rintro ⟨h1, h2⟩
        exact ⟨List.mem_cons_of_mem _ h1, h2⟩
      · rintro ⟨h1, h2⟩
        refine ⟨?_, h2⟩
        rcases List.mem_cons.mp h1 with h3 | h3
        · subst h3; exact absurd hy h2
        · exact h3
    · rw [dedupFirstAux, if_neg hy]
      constructor
      · intro h1
        rcases List.mem_cons.mp h1 with h3 | h3
        · subst h3; exact ⟨List.mem_cons_self _ _, hy⟩
        · have := (mem_dedupFirstAux ys (y :: seen) x).mp h3
          exact ⟨List.mem_cons_of_mem _ this.1,
            fun hc => this.2 (List.mem_cons_of_mem _ hc)⟩
      · rintro ⟨h1, h2⟩
        by_cases hxy : x = y
        · subst hxy; exact List.mem_cons_self _ _
        · rcases List.mem_cons.mp h1 with h3 | h3
          · exact absurd h3 hxy
          · refine List.mem_cons_of_mem _ ((mem_dedupFirstAux ys (y :: seen) x).mpr ⟨h3, ?_⟩)
            intro hc
            rcases List.mem_cons.mp hc with h4 | h4
            · exact hxy h4
            · exact h2 h4

theorem mem_dedupFirst {l : List String} {x : String} : x ∈ dedupFirst l ↔ x ∈ l := by
  rw [dedupFirst, mem_dedupFirstAux]
  simp

theorem dedupFirstAux_nodup : ∀ (l seen : List String), (dedupFirstAux seen l).Nodup
  | [], _ => List.nodup_nil
  | y :: ys, seen => by
    by_cases hy : y ∈ seen
    · rw [dedupFirstAux, if_pos hy]
      exact dedupFirstAux_nodup ys seen
    · rw [dedupFirstAux, if_neg hy]
      refine List.nodup_cons.mpr ⟨?_, dedupFirstAux_nodup ys (y :: seen)⟩
      intro hc
      exact ((mem_dedupFirstAux ys (y :: seen) y).mp hc).2 (List.mem_cons_self _ _)

theorem dedupFirst_nodup (l : List String) : (dedupFirst l).Nodup :=
  dedupFirstAux_nodup l []

theorem odInsert_of_not_mem_keys {β : Type} :
    ∀ (bs : List (String × β)) (k : String) (v : β),
      (∀ p ∈ bs, p.1 ≠ k) →
      odInsert bs k v = bs ++ [(k, v)]
  | [], _, _, _ => rfl
  | (k', v') :: rest, k, v, h => by
    have hk : k' ≠ k := h (k', v') (List.mem_cons_self _ _)
    rw [odInsert, if_neg hk, odInsert_of_not_mem_keys rest k v
      (fun p hp => h p (List.mem_cons_of_mem _ hp))]
    simp

/-- Attaching fresh, pairwise distinct branch keys in a loop builds exactly
the ordered branch list of (value, wrapped child) pairs. -/
theorem foldl_add_branch_eq_map (g : String → DTResult) (A : String) :
    ∀ (vals : List String) (bs : List (String × DecisionTree)),
      vals.Nodup → (∀ v ∈ vals, ∀ p ∈ bs, p.1 ≠ v) →
      vals.foldl (fun (t : DecisionTree) vk => t.add_branch vk (g vk))
          (DecisionTree.node A bs)
        = DecisionTree.node A (bs ++ vals.map (fun vk => (vk, toSubtree (g vk))))
  | [], bs, _, _ => by simp
  | vk :: rest, bs, hnd, hdisj => by
    have hstep : DecisionTree.add_branch (DecisionTree.node A bs) vk (g vk)
        = DecisionTree.node A (bs ++ [(vk, toSubtree (g vk))]) := by
      rw [DecisionTree.add_branch,
        odInsert_of_not_mem_keys bs vk (toSubtree (g vk))
          (fun p hp => hdisj vk (List.mem_cons_self _ _) p hp)]
    have hnd' := (List.nodup_cons.mp hnd).2
    have hvk : vk ∉ rest := (List.nodup_cons.mp hnd).1
    have hdisj' : ∀ v ∈ rest, ∀ p ∈ bs ++ [(vk, toSubtree (g vk))], p.1 ≠ v := by
      intro v hv p hp
      rcases List.mem_append.mp hp with h1 | h1
      · exact hdisj v (List.mem_cons_of_mem _ hv) p h1
      · simp only [List.mem_singleton] at h1
        subst h1
        show vk ≠ v
        intro hc
        exact hvk (by rw [hc]; exact hv)
    calc (vk :: rest).foldl (fun (t : DecisionTree) vk => t.add_branch vk (g vk))
          (DecisionTree.node A bs)
        = rest.foldl (fun (t : DecisionTree) vk => t.add_branch vk (g vk))
            (DecisionTree.node A (bs ++ [(vk, toSubtree (g vk))])) := by
          rw [List.foldl_cons, hstep]
      _ = DecisionTree.node A ((bs ++ [(vk, toSubtree (g vk))])
            ++ rest.map (fun vk => (vk, toSubtree (g vk)))) :=
          foldl_add_branch_eq_map g A rest _ hnd' hdisj'
      _ = DecisionTree.node A (bs ++ (vk, toSubtree (g vk))
            :: rest.map (fun vk => (vk, toSubtree (g vk)))) := by simp

/-- Any fuel at least `attributes.length` computes the same result: the
attribute list shrinks at every recursive call, so the out-of-fuel branch of
`dtlFuel` is unreachable from `decision_tree_learning`. -/
theorem dtlFuel_irrel {α : Type} [LinearOrder α] [DecidableEq α] :
    ∀ (f₁ f₂ : Nat) (examples : List Example) (attributes : List String)
      (parent_examples : List Example) (imp : String → List Example → α),
      attributes.length ≤ f₁ → attributes.length ≤ f₂ →
      dtlFuel f₁ examples attributes parent_examples imp
        = dtlFuel f₂ examples attributes parent_examples imp := by
  intro f₁
  induction f₁ with
  | zero =>
    intro f₂ examples attributes parent imp h1 h2
    have hnil : attributes = [] := List.eq_nil_of_length_eq_zero (Nat.le_zero.mp h1)
    subst hnil
    cases f₂ <;> simp [dtlFuel]
  | succ g ih =>
    intro f₂ examples attributes parent imp h1 h2
    cases f₂ with
    | zero =>
      have hnil : attributes = [] := List.eq_nil_of_length_eq_zero (Nat.le_zero.mp h2)
      subst hnil
      simp [dtlFuel]
    | succ g₂ =>
      by_cases hex : examples = []
      · simp [dtlFuel, hex]
      · by_cases hsame : examples_have_same_classification examples = true
        · simp [dtlFuel, hex, hsame]
        · by_cases hattr : attributes = []
          · simp [dtlFuel, hex, hsame, hattr]
          · have hmem : chooseAttr imp attributes examples ∈ attributes :=
              (chooseAttr_spec imp attributes examples hattr).1
            have hlt : (attributes.filter
                (fun a => decide (a ≠ chooseAttr imp attributes examples))).length
                < attributes.length := length_filter_ne_lt hmem
            simp only [dtlFuel, if_neg hex, hsame, if_neg hattr, Bool.false_eq_true, if_false]
            congr 1
            apply List.foldl_ext
            intro t vk hvk
            congr 1
            exact ih g₂ _ _ _ _ (Nat.lt_succ_iff.mp (lt_of_lt_of_le hlt h1))
              (Nat.lt_succ_iff.mp (lt_of_lt_of_le hlt h2))

instance {ε σ : Type} [DecidableEq ε] [DecidableEq σ] : DecidableEq (Except ε σ) :=
  fun x y =>
    match x, y with
    | .ok a, .ok b => if h : a = b then .isTrue (by rw [h]) else .isFalse (by simp [h])
    | .error a, .error b =>
      if h : a = b then .isTrue (by rw [h]) else .isFalse (by simp [h])
    | .ok _, .error _ => .isFalse (by simp)
    | .error _, .ok _ => .isFalse (by simp)

/-! ### Tree evaluation -/

mutual

/-- `DecisionTree.eval(example)`: the descent loop. Starting at `self`, while
the current node is not a leaf, look up the example's value for the node's
split attribute in the branch dict and descend; an absent key (`KeyError`)
raises `ValueError("Value '<v>' not found among branches for <attr>")`,
carried here as `.error (v, attr)`. A leaf returns its stored value. -/
def DecisionTree.eval (t : DecisionTree) (e : Example) :
    Except (String × String) String :=
  match t with
  | .leaf v => .ok v
  | .node a bs => evalBranches a (eget e a) bs e

/-- One `tree.branches[v]` dict access of the descent loop: find the branch
whose key equals `v` and continue there, or fail as the loop's handler does. -/
def evalBranches (a v : String) (bs : List (String × DecisionTree))
    (e : Example) : Except (String × String) String :=
  match bs with
  | [] => .error (v, a)
  | (k, t) :: rest => if k = v then t.eval e else evalBranches a v rest e

end

/-- The branch dict lookup `branches[v]` on its own, as an option. -/
def branchLookup (v : String) : List (String × DecisionTree) → Option DecisionTree
  | [] => none
  | (k, t) :: rest => if k = v then some t else branchLookup v rest

theorem evalBranches_eq (a v : String) (e : Example) :
    ∀ (bs : List (String × DecisionTree)),
      evalBranches a v bs e
        = match branchLookup v bs with
          | none => .error (v, a)
          | some t => t.eval e
  | [] => rfl
  | (k, t) :: rest => by
    by_cases hk : k = v
    · simp [evalBranches, branchLookup, hk]
    · simp only [evalBranches, branchLookup, if_neg hk]
      exact evalBranches_eq a v e rest

mutual

/-- The example's value for every split attribute met during the descent has
a matching branch (the premise of the claim's success case). -/
def allMatch : DecisionTree → Example → Prop
  | .leaf _, _ => True
  | .node a bs, e => allMatchBranches (eget e a) bs e

def allMatchBranches : String → List (String × DecisionTree) → Example → Prop
  | _, [], _ => False
  | v, (k, t) :: rest, e => if k = v then allMatch t e else allMatchBranches v rest e

end

mutual

theorem allMatch_eval_ok : ∀ (t : DecisionTree) (e : Example),
    allMatch t e → ∃ v, DecisionTree.eval t e = .ok v
  | .leaf v, _, _ => ⟨v, rfl⟩
  | .node a bs, e, h => allMatchBranches_eval_ok a (eget e a) bs e h

theorem allMatchBranches_eval_ok : ∀ (a v : String)
    (bs : List (String × DecisionTree)) (e : Example),
    allMatchBranches v bs e → ∃ w, evalBranches a v bs e = .ok w
  | _, v, [], e, h => absurd h (by simp [allMatchBranches])
  | a, v, (k, t) :: rest, e, h => by
    by_cases hk : k = v
    · have h' : allMatch t e := by
        rw [allMatchBranches, if_pos hk] at h
        exact h
      obtain ⟨w, hw⟩ := allMatch_eval_ok t e h'
      exact ⟨w, by rw [evalBranches, if_pos hk, hw]⟩
    · have h' : allMatchBranches v rest e := by
        rw [allMatchBranches, if_neg hk] at h
        exact h
      obtain ⟨w, hw⟩ := allMatchBranches_eval_ok a v rest e h'
      exact ⟨w, by rw [evalBranches, if_neg hk, hw]⟩

end

/-! ### Tree rendering (`DecisionTree.__str__`) -/

/-- Python `s.split('\n')` over the characters of `s`: the empty string
splits to one empty piece, and every newline starts a new piece. -/
def splitNl : List Char → List (List Char)
  | [] => [[]]
  | c :: rest =>
    if c = '\n' then [] :: splitNl rest
    else
      match splitNl rest with
      | [] => [[c]]
      | l :: ls => (c :: l) :: ls

/-- Python `s[:-2]`: all characters but the last two. -/
def pyDropLast2 (l : List Char) : List Char := l.take (l.length - 2)

/-- `"  " + "\n  ".join(str(subtree).split('\n'))[:-2]`: indent every line of
a rendered subtree by two spaces, keeping the trailing newline. -/
def indentBlock (s : List Char) : List Char :=
  ' ' :: ' ' :: pyDropLast2 (List.intercalate ['\n', ' ', ' '] (splitNl s))

mutual

/-- `DecisionTree.__str__` as a character list: a leaf prints
`"Leaf node returns {value}\n"`; a node prints, for each branch in dict
order, the line `"{attr} == {val}\n"` followed by the indented rendering of
the child. -/
def DecisionTree.render : DecisionTree → List Char
  | .leaf v => ("Leaf node returns ".data) ++ v.data ++ ['\n']
  | .node attr bs => renderBranches attr bs

def renderBranches (attr : String) : List (String × DecisionTree) → List Char
  | [] => []
  | (vk, sub) :: rest =>
    attr.data ++ (" == ".data) ++ vk.data ++ ['\n']
      ++ indentBlock sub.render ++ renderBranches attr rest

end

/-- `str(result)` for what the engine returns: a bare label prints as the
label itself, a tree through `DecisionTree.__str__`. -/
def renderResult : DTResult → List Char
  | .label v => v.data
  | .tree t => t.render

/-! ### Fixtures: the four-example restaurant scenario -/

def restaurantEx1 : Example :=
  [("Patrons", "None"), ("Hungry", "Yes"), ("classification", "No")]

def restaurantEx2 : Example :=
  [("Patrons", "Some"), ("Hungry", "Yes"), ("classification", "Yes")]

def restaurantEx3 : Example :=
  [("Patrons", "Full"), ("Hungry", "Yes"), ("classification", "Yes")]

def restaurantEx4 : Example :=
  [("Patrons", "Full"), ("Hungry", "No"), ("classification", "No")]

def restaurantExamples : List Example :=
  [restaurantEx1, restaurantEx2, restaurantEx3, restaurantEx4]

/-! ### Entropy evaluations -/

theorem B_zero : B 0 = 0 := by rw [B, if_pos (Or.inl rfl)]

theorem B_one : B 1 = 0 := by rw [B, if_pos (Or.inr rfl)]

theorem logb_two_half : Real.logb 2 (1/2 : ℝ) = -1 := by
  rw [one_div, Real.logb_inv, Real.logb_self_eq_one (by norm_num)]

theorem B_half : B (1/2) = 1 := by
  rw [B, if_neg (by norm_num), show (1:ℝ) - 1/2 = 1/2 by norm_num, logb_two_half]
  norm_num

theorem gB_zero (b : ℝ) : generalised_B 0 b = 0 := by
  rw [generalised_B, if_pos (Or.inl rfl)]

theorem gB_one (b : ℝ) : generalised_B 1 b = 0 := by
  rw [generalised_B, if_pos (Or.inr rfl)]

theorem gB_half : generalised_B (1/2) 2 = 1/2 := by
  rw [generalised_B, if_neg (by norm_num), logb_two_half]
  norm_num

/-- The four-case unfolding of `decision_tree_learning`: used both for the
claim about the engine's case order and for the order-invariance proofs. -/
theorem dtl_case_equations {α : Type} [LinearOrder α] [DecidableEq α]
    (examples : List Example) (attributes : List String)
    (parent_examples : List Example) (imp : String → List Example → α) :
    (examples = [] →
      decision_tree_learning examples attributes parent_examples imp
        = .label (plurality_value parent_examples)) ∧
    (∀ e rest, examples = e :: rest →
      examples_have_same_classification examples = true →
      decision_tree_learning examples attributes parent_examples imp
        = .label (classificationOf e)) ∧
    (examples ≠ [] → examples_have_same_classification examples = false →
      attributes = [] →
      decision_tree_learning examples attributes parent_examples imp
        = .label (plurality_value examples)) ∧
    (examples ≠ [] → examples_have_same_classification examples = false →
      attributes ≠ [] →
      decision_tree_learning examples attributes parent_examples imp
        = .tree (.node (chooseAttr imp attributes examples)
            ((get_attribute_values (chooseAttr imp attributes examples) examples).map
              (fun vk => (vk, toSubtree (decision_tree_learning
                (examples.filter (fun e =>
                  decide (elookup e (chooseAttr imp attributes examples) = some vk)))
                (attributes.filter (fun a =>
                  decide (a ≠ chooseAttr imp attributes examples)))
                examples imp)))))) := by
  refine ⟨?_, ?_, ?_, ?_⟩
  · intro hex
    subst hex
    cases attributes <;> simp [decision_tree_learning, dtlFuel]
  · intro e rest hex hsame
    subst hex
    cases attributes <;> simp [decision_tree_learning, dtlFuel, hsame]
  · intro hex hsame hattr
    subst hattr
    simp [decision_tree_learning, dtlFuel, hex, hsame]
  · intro hex hsame hattr
    obtain ⟨a, as, rfl⟩ := List.exists_cons_of_ne_nil hattr
    set A := chooseAttr imp (a :: as) examples with hA
    set att := (a :: as).filter (fun x => decide (x ≠ A)) with hatt
    have hmem : A ∈ a :: as := (chooseAttr_spec imp (a :: as) examples hattr).1
    have hlt : att.length < (a :: as).length := length_filter_ne_lt hmem
    simp only [decision_tree_learning, List.length_cons, dtlFuel, if_neg hex, hsame,
      Bool.false_eq_true, if_false, if_neg (List.cons_ne_nil a as)]
    rw [foldl_add_branch_eq_map _ A (get_attribute_values A examples) []
      (dedupFirst_nodup _) (by simp)]
    simp only [List.nil_append]
    congr 1
    congr 1
    apply List.map_congr_left
    intro vk _
    congr 2
    exact dtlFuel_irrel as.length att.length _ att _ imp
      (Nat.lt_succ_iff.mp hlt) (le_refl _)

/-! ### Order invariance of induction under a tie-free policy -/

theorem chooseAttr_perm {α : Type} [LinearOrder α] [DecidableEq α]
    (imp : String → List Example → α)
    (hties : ∀ (exs : List Example) (a b : String), imp a exs = imp b exs → a = b)
    (attrs₁ attrs₂ : List String) (hperm : attrs₁.Perm attrs₂) (h1 : attrs₁ ≠ [])
    (examples : List Example) :
    chooseAttr imp attrs₁ examples = chooseAttr imp attrs₂ examples := by
  have h2 : attrs₂ ≠ [] := by
    intro hc
    subst hc
    exact h1 hperm.eq_nil
  obtain ⟨m1, b1⟩ := chooseAttr_spec imp attrs₁ examples h1
  obtain ⟨m2, b2⟩ := chooseAttr_spec imp attrs₂ examples h2
  apply hties examples
  apply le_antisymm
  · exact b2 _ (hperm.mem_iff.mp m1)
  · exact b1 _ (hperm.mem_iff.mpr m2)

theorem dtl_perm_aux {α : Type} [LinearOrder α] [DecidableEq α]
    (imp : String → List Example → α)
    (hties : ∀ (exs : List Example) (a b : String), imp a exs = imp b exs → a = b) :
    ∀ (n : Nat) (attrs₁ attrs₂ : List String) (examples parent : List Example),
      attrs₁.length ≤ n → attrs₁.Perm attrs₂ →
      decision_tree_learning examples attrs₁ parent imp
        = decision_tree_learning examples attrs₂ parent imp := by
  intro n
  induction n with
  | zero =>
    intro attrs₁ attrs₂ examples parent h1 hperm
    have e1 : attrs₁ = [] := List.eq_nil_of_length_eq_zero (Nat.le_zero.mp h1)
    subst e1
    have e2 : attrs₂ = [] := hperm.symm.eq_nil
    subst e2
    rfl
  | succ m ih =>
    intro attrs₁ attrs₂ examples parent h1 hperm
    by_cases hex : examples = []
    · rw [(dtl_case_equations examples attrs₁ parent imp).1 hex,
        (dtl_case_equations examples attrs₂ parent imp).1 hex]
    · by_cases hsame : examples_have_same_classification examples = true
      · obtain ⟨e, rest, hcons⟩ := List.exists_cons_of_ne_nil hex
        rw [(dtl_case_equations examples attrs₁ parent imp).2.1 e rest hcons hsame,
          (dtl_case_equations examples attrs₂ parent imp).2.1 e rest hcons hsame]
      · have hsame' : examples_have_same_classification examples = false := by
          revert hsame
          cases examples_have_same_classification examples <;> simp
        by_cases hattr : attrs₁ = []
        · subst hattr
          have e2 : attrs₂ = [] := hperm.symm.eq_nil
          subst e2
          rfl
        · have hattr₂ : attrs₂ ≠ [] := by
            intro hc
            subst hc
            exact hattr hperm.eq_nil
          have hA : chooseAttr imp attrs₁ examples = chooseAttr imp attrs₂ examples :=
            chooseAttr_perm imp hties attrs₁ attrs₂ hperm hattr examples
          rw [(dtl_case_equations examples attrs₁ parent imp).2.2.2 hex hsame' hattr,
            (dtl_case_equations examples attrs₂ parent imp).2.2.2 hex hsame' hattr₂,
            ← hA]
          congr 1
          congr 1
          apply List.map_congr_left
          intro vk _
          congr 2
          apply ih
          · have hlt : (attrs₁.filter
                (fun a => decide (a ≠ chooseAttr imp attrs₁ examples))).length
                < attrs₁.length :=
              length_filter_ne_lt (chooseAttr_spec imp attrs₁ examples hattr).1
            exact Nat.lt_succ_iff.mp (lt_of_lt_of_le hlt h1)
          · exact hperm.filter _

/-! ### The Lexer

The token patterns of `Lexer.tokenize`, tried in the listed priority order at
every position (Python `re` alternation is leftmost-first, each alternative
greedy). Inputs are modelled as ASCII character lists: `\\w` is a basic-latin
word character, case-insensitive literal keywords compare through
`Char.toLower`. -/

def isWordChar (c : Char) : Bool := c.isAlphanum || c = '_' || c = '$' || c = '<' || c = '>' || c = '='

def isHyphenChar (c : Char) : Bool := c = '-' || c = '–'

def wordRun : List Char → Nat
  | [] => 0
  | c :: rest => if isWordChar c then wordRun rest + 1 else 0

def digitRun : List Char → Nat
  | [] => 0
  | c :: rest => if c.isDigit then digitRun rest + 1 else 0

def nonNlRun : List Char → Nat
  | [] => 0
  | c :: rest => if c = '\n' then 0 else nonNlRun rest + 1

def strScanSt : List Char → Bool → Nat
  | [], _ => 0
  | c :: rest, false =>
    if isWordChar c then 1 + strScanSt rest false
    else if isHyphenChar c then
      if strScanSt rest true = 0 then 0 else 1 + strScanSt rest true
    else 0
  | c :: rest, true => if isWordChar c then 1 + strScanSt rest false else 0

def matchSTRING (s : List Char) : Option Nat :=
  match s with
  | [] => none
  | c :: _ => if isWordChar c then some (strScanSt s false) else none

def matchCOMMENT (s : List Char) : Option Nat :=
  match s with
  | [] => none
  | c :: rest => if c = '%' then some (1 + nonNlRun rest) else none

def matchLit : List Char → List Char → Option Nat
  | [], _ => some 0
  | _ :: _, [] => none
  | l :: lr, c :: cr =>
    if c.toLower = l then (matchLit lr cr).map (· + 1) else none

def matchChar (c : Char) (s : List Char) : Option Nat :=
  match s with
  | c' :: _ => if c' = c then some 1 else none
  | [] => none

def matchNUMBER (s : List Char) : Option Nat :=
  if digitRun s = 0 then none
  else
    match s.drop (digitRun s) with
    | [] => some (digitRun s)
    | c :: rest =>
      if c = '.' then
        if digitRun rest = 0 then some (digitRun s)
        else some (digitRun s + 1 + digitRun rest)
      else some (digitRun s)

def matchToken (s : List Char) : Option (String × Nat) :=
  match matchCOMMENT s with
  | some n => some ("COMMENT", n)
  | none =>
  match matchLit ("@relation".data) s with
  | some n => some ("RELATION_DECL", n)
  | none =>
  match matchSTRING s with
  | some n => some ("STRING", n)
  | none =>
  match matchLit ("@attribute".data) s with
  | some n => some ("ATTR_DECL", n)
  | none =>
  match matchLit ("numeric".data) s with
  | some n => some ("NUM_DATATYPE", n)
  | none =>
  match matchLit ("integer".data) s with
  | some n => some ("NUM_DATATYPE", n)
  | none =>
  match matchLit ("real".data) s with
  | some n => some ("NUM_DATATYPE", n)
  | none =>
  match matchChar '{' s with
  | some n => some ("LEFT_CURLY", n)
  | none =>
  match matchChar '}' s with
  | some n => some ("RIGHT_CURLY", n)
  | none =>
  match matchChar ',' s with
  | some n => some ("COMMA", n)
  | none =>
  match matchLit ("@data".data) s with
  | some n => some ("DATA_DECL", n)
  | none =>
  match matchChar '?' s with
  | some n => some ("MISSING_DECL", n)
  | none =>
  match matchNUMBER s with
  | some n => some ("NUMBER", n)
  | none =>
  match matchChar '\n' s with
  | some n => some ("NEWLINE", n)
  | none =>
  match matchChar ' ' s with
  | some n => some ("SKIP", n)
  | none =>
  match matchChar '\t' s with
  | some n => some ("SKIP", n)
  | none => none

structure Token where
  typ : String
  value : String
  line : Nat
  column : Nat
deriving DecidableEq

structure LexError where
  char : Char
  line : Nat
deriving DecidableEq

def keywords : List String := ["IF", "THEN", "ENDIF", "NEXT", "GOSUB", "RETURN"]

def tokenizeLoop (s : List Char) : Nat → Nat → Nat → Nat → List Token →
    Except LexError (List Token)
  | 0, pos, line, _, acc =>
    if pos ≠ s.length then .error ⟨s.getD pos ' ', line⟩ else .ok acc.reverse
  | fuel + 1, pos, line, lineStart, acc =>
    match matchToken (s.drop pos) with
    | none =>
      if pos ≠ s.length then .error ⟨s.getD pos ' ', line⟩ else .ok acc.reverse
    | some (typ, n) =>
      if typ = "NEWLINE" then
        tokenizeLoop s fuel (pos + n) (line + 1) pos acc
      else if typ = "SKIP" ∨ typ = "COMMENT" then
        tokenizeLoop s fuel (pos + n) line lineStart acc
      else
        tokenizeLoop s fuel (pos + n) line lineStart
          (⟨if typ = "STRING" ∧ keywords.contains (String.mk ((s.drop pos).take n))
              then String.mk ((s.drop pos).take n) else typ,
            String.mk ((s.drop pos).take n), line, pos - lineStart⟩ :: acc)

def tokenize (s : String) : Except LexError (List Token) :=
  tokenizeLoop s.data (s.data.length + 1) 0 1 0 []

/-! ### Lexer facts -/

theorem strScanSt_le : ∀ (s : List Char) (st : Bool), strScanSt s st ≤ s.length := by
  intro s
  induction s with
  | nil => intro st; simp [strScanSt]
  | cons c' rest ih =>
    intro st
    have hf := ih false
    have ht := ih true
    cases st with
    | false =>
      rw [strScanSt]
      by_cases hw : isWordChar c' = true
      · rw [if_pos hw]
        simp only [List.length_cons]
        omega
      · rw [if_neg hw]
        by_cases hh : isHyphenChar c' = true
        · rw [if_pos hh]
          by_cases hz : strScanSt rest true = 0
          · rw [if_pos hz]
            exact Nat.zero_le _
          · rw [if_neg hz]
            simp only [List.length_cons]
            omega
        · rw [if_neg hh]
          exact Nat.zero_le _
    | true =>
      rw [strScanSt]
      by_cases hw : isWordChar c' = true
      · rw [if_pos hw]
        simp only [List.length_cons]
        omega
      · rw [if_neg hw]
        exact Nat.zero_le _

theorem strScanSt_chars : ∀ (s : List Char) (st : Bool) (c : Char),
    c ∈ s.take (strScanSt s st) → isWordChar c = true ∨ isHyphenChar c = true := by
  intro s
  induction s with
  | nil => intro st c; simp
  | cons c' rest ih =>
    intro st c
    cases st with
    | false =>
      rw [strScanSt]
      by_cases hw : isWordChar c' = true
      · rw [if_pos hw, Nat.add_comm 1 (strScanSt rest false), List.take_succ_cons]
        intro hmem
        rcases List.mem_cons.mp hmem with h | h
        · subst h; exact Or.inl hw
        · exact ih false c h
      · rw [if_neg hw]
        by_cases hh : isHyphenChar c' = true
        · rw [if_pos hh]
          by_cases hz : strScanSt rest true = 0
          · rw [if_pos hz]
            simp
          · rw [if_neg hz, Nat.add_comm 1 (strScanSt rest true), List.take_succ_cons]
            intro hmem
            rcases List.mem_cons.mp hmem with h | h
            · subst h; exact Or.inr hh
            · exact ih true c h
        · rw [if_neg hh]
          simp
    | true =>
      rw [strScanSt]
      by_cases hw : isWordChar c' = true
      · rw [if_pos hw, Nat.add_comm 1 (strScanSt rest false), List.take_succ_cons]
        intro hmem
        rcases List.mem_cons.mp hmem with h | h
        · subst h; exact Or.inl hw
        · exact ih false c h
      · rw [if_neg hw]
        simp

theorem nonNlRun_le : ∀ (s : List Char), nonNlRun s ≤ s.length := by
  intro s
  induction s with
  | nil => simp [nonNlRun]
  | cons c rest ih =>
    rw [nonNlRun]
    by_cases hc : c = '\n'
    · rw [if_pos hc]
      exact Nat.zero_le _
    · rw [if_neg hc]
      simp only [List.length_cons]
      omega

theorem nonNlRun_chars : ∀ (s : List Char) (c : Char),
    c ∈ s.take (nonNlRun s) → c ≠ '\n' := by
  intro s
  induction s with
  | nil => simp
  | cons c' rest ih =>
    intro c
    rw [nonNlRun]
    by_cases hc : c' = '\n'
    · rw [if_pos hc]
      simp
    · rw [if_neg hc, List.take_succ_cons]
      intro hmem
      rcases List.mem_cons.mp hmem with h | h
      · subst h; exact hc
      · exact ih c h

theorem digitRun_le : ∀ (s : List Char), digitRun s ≤ s.length := by
  intro s
  induction s with
  | nil => simp [digitRun]
  | cons c rest ih =>
    rw [digitRun]
    by_cases hc : c.isDigit = true
    · rw [if_pos hc]
      simp only [List.length_cons]
      omega
    · rw [if_neg hc]
      exact Nat.zero_le _

theorem digitRun_chars : ∀ (s : List Char) (c : Char),
    c ∈ s.take (digitRun s) → c.isDigit = true := by
  intro s
  induction s with
  | nil => simp
  | cons c' rest ih =>
    intro c
    rw [digitRun]
    by_cases hc : c'.isDigit = true
    · rw [if_pos hc, List.take_succ_cons]
      intro hmem
      rcases List.mem_cons.mp hmem with h | h
      · subst h; exact hc
      · exact ih c h
    · rw [if_neg hc]
      simp

theorem matchLit_le : ∀ (lit s : List Char) (n : Nat),
    matchLit lit s = some n → n ≤ s.length
  | [], s, n, h => by
    rw [matchLit] at h
    injection h with h
    omega
  | l :: lr, [], n, h => by
    rw [matchLit] at h
    exact Option.noConfusion h
  | l :: lr, c :: cr, n, h => by
    rw [matchLit] at h
    by_cases hc : c.toLower = l
    · rw [if_pos hc] at h
      cases hm : matchLit lr cr with
      | none => rw [hm] at h; exact Option.noConfusion h
      | some m =>
        rw [hm] at h
        simp only [Option.map_some'] at h
        injection h with h
        have := matchLit_le lr cr m hm
        simp only [List.length_cons]
        omega
    · rw [if_neg hc] at h
      exact Option.noConfusion h

theorem matchLit_chars : ∀ (lit s : List Char) (n : Nat),
    matchLit lit s = some n → ∀ c ∈ s.take n, c.toLower ∈ lit
  | [], s, n, h => by
    rw [matchLit] at h
    injection h with h
    subst h
    simp
  | l :: lr, [], n, h => by
    rw [matchLit] at h
    exact Option.noConfusion h
  | l :: lr, c :: cr, n, h => by
    rw [matchLit] at h
    by_cases hc : c.toLower = l
    · rw [if_pos hc] at h
      cases hm : matchLit lr cr with
      | none => rw [hm] at h; exact Option.noConfusion h
      | some m =>
        rw [hm] at h
        simp only [Option.map_some'] at h
        injection h with h
        subst h
        intro x hx
        rw [List.take_succ_cons] at hx
        rcases List.mem_cons.mp hx with h1 | h1
        · subst h1
          rw [hc]
          exact List.mem_cons_self _ _
        · exact List.mem_cons_of_mem _ (matchLit_chars lr cr m hm x h1)
    · rw [if_neg hc] at h
      exact Option.noConfusion h

theorem matchLit_pos : ∀ (lit s : List Char) (n : Nat), lit ≠ [] →
    matchLit lit s = some n → 1 ≤ n := by
  intro lit s n hlit h
  match lit, s with
  | [], _ => exact absurd rfl hlit
  | l :: lr, [] => rw [matchLit] at h; exact Option.noConfusion h
  | l :: lr, c :: cr =>
    rw [matchLit] at h
    by_cases hc : c.toLower = l
    · rw [if_pos hc] at h
      cases hm : matchLit lr cr with
      | none => rw [hm] at h; exact Option.noConfusion h
      | some m =>
        rw [hm] at h
        simp only [Option.map_some'] at h
        injection h with h
        omega
    · rw [if_neg hc] at h
      exact Option.noConfusion h

theorem matchChar_eq : ∀ (c : Char) (s : List Char) (n : Nat),
    matchChar c s = some n → n = 1 ∧ ∃ rest, s = c :: rest := by
  intro c s n h
  match s with
  | [] => rw [matchChar] at h; exact Option.noConfusion h
  | c' :: rest =>
    rw [matchChar] at h
    by_cases hc : c' = c
    · rw [if_pos hc] at h
      injection h with h
      subst hc
      exact ⟨h.symm, rest, rfl⟩
    · rw [if_neg hc] at h
      exact Option.noConfusion h

theorem matchCOMMENT_eq : ∀ (s : List Char) (n : Nat),
    matchCOMMENT s = some n → ∃ rest, s = '%' :: rest ∧ n = 1 + nonNlRun rest := by
  intro s n h
  match s with
  | [] => rw [matchCOMMENT] at h; exact Option.noConfusion h
  | c :: rest =>
    rw [matchCOMMENT] at h
    by_cases hc : c = '%'
    · rw [if_pos hc] at h
      injection h with h
      exact ⟨rest, by rw [hc], h.symm⟩
    · rw [if_neg hc] at h
      exact Option.noConfusion h

theorem matchSTRING_eq : ∀ (s : List Char) (n : Nat), matchSTRING s = some n →
    1 ≤ n ∧ n ≤ s.length ∧ ∀ c ∈ s.take n, isWordChar c = true ∨ isHyphenChar c = true := by
  intro s n h
  match s with
  | [] => rw [matchSTRING] at h; exact Option.noConfusion h
  | c :: rest =>
    rw [matchSTRING] at h
    by_cases hw : isWordChar c = true
    · rw [if_pos hw] at h
      injection h with h
      subst h
      refine ⟨?_, strScanSt_le _ _, fun x hx => strScanSt_chars _ _ x hx⟩
      rw [strScanSt, if_pos hw]
      omega
    · rw [if_neg hw] at h
      exact Option.noConfusion h

theorem matchNUMBER_eq : ∀ (s : List Char) (n : Nat), matchNUMBER s = some n →
    1 ≤ n ∧ n ≤ s.length ∧ ∀ c ∈ s.take n, c.isDigit = true ∨ c = '.' := by
  intro s n h
  rw [matchNUMBER] at h
  by_cases hz : digitRun s = 0
  · rw [if_pos hz] at h
    exact Option.noConfusion h
  · rw [if_neg hz] at h
    have hdle := digitRun_le s
    have hdchars : ∀ c ∈ s.take (digitRun s), c.isDigit = true := digitRun_chars s
    cases hdrop : s.drop (digitRun s) with
    | nil =>
      rw [hdrop] at h
      simp only [] at h
      injection h with h
      subst h
      exact ⟨by omega, hdle, fun c hc => Or.inl (hdchars c hc)⟩
    | cons c rest =>
      rw [hdrop] at h
      simp only [] at h
      by_cases hdot : c = '.'
      · rw [if_pos hdot] at h
        by_cases hz2 : digitRun rest = 0
        · rw [if_pos hz2] at h
          injection h with h
          subst h
          exact ⟨by omega, hdle, fun c hc => Or.inl (hdchars c hc)⟩
        · rw [if_neg hz2] at h
          injection h with h
          subst h
          have hlen : s.length = digitRun s + 1 + rest.length := by
            have h1 : (s.drop (digitRun s)).length = s.length - digitRun s :=
              List.length_drop _ _
            rw [hdrop] at h1
            simp only [List.length_cons] at h1
            omega
          have hrle := digitRun_le rest
          refine ⟨by omega, by omega, ?_⟩
          intro x hx
          rw [show digitRun s + 1 + digitRun rest
              = digitRun s + (1 + digitRun rest) from by omega,
            List.take_add, hdrop] at hx
          rcases List.mem_append.mp hx with h1 | h1
          · exact Or.inl (hdchars x h1)
          · rw [show 1 + digitRun rest = digitRun rest + 1 from by omega,
              List.take_succ_cons] at h1
            rcases List.mem_cons.mp h1 with h2 | h2
            · subst h2; exact Or.inr hdot
            · exact Or.inl (digitRun_chars rest x h2)
      · rw [if_neg hdot] at h
        injection h with h
        subst h
        exact ⟨by omega, hdle, fun c hc => Or.inl (hdchars c hc)⟩

theorem matchToken_eq_some : ∀ (s : List Char) (t : String) (n : Nat),
    matchToken s = some (t, n) →
    (t = "COMMENT" ∧ matchCOMMENT s = some n)
    ∨ (t = "RELATION_DECL" ∧ matchLit ("@relation".data) s = some n)
    ∨ (t = "STRING" ∧ matchSTRING s = some n)
    ∨ (t = "ATTR_DECL" ∧ matchLit ("@attribute".data) s = some n)
    ∨ (t = "NUM_DATATYPE" ∧ (matchLit ("numeric".data) s = some n
        ∨ matchLit ("integer".data) s = some n ∨ matchLit ("real".data) s = some n))
    ∨ (t = "LEFT_CURLY" ∧ matchChar '{' s = some n)
    ∨ (t = "RIGHT_CURLY" ∧ matchChar '}' s = some n)
    ∨ (t = "COMMA" ∧ matchChar ',' s = some n)
    ∨ (t = "DATA_DECL" ∧ matchLit ("@data".data) s = some n)
    ∨ (t = "MISSING_DECL" ∧ matchChar '?' s = some n)
    ∨ (t = "NUMBER" ∧ matchNUMBER s = some n)
    ∨ (t = "NEWLINE" ∧ matchChar '\n' s = some n)
    ∨ (t = "SKIP" ∧ (matchChar ' ' s = some n ∨ matchChar '\t' s = some n)) := by
  intro s t n h
  rw [matchToken] at h
  cases h1 : matchCOMMENT s with
  | some m =>
    rw [h1] at h
    injection h with hp
    injection hp with ha hb
    subst ha
    subst hb
    exact Or.inl ⟨rfl, rfl⟩
  | none =>
    rw [h1] at h
    cases h2 : matchLit ("@relation".data) s with
    | some m =>
      rw [h2] at h
      injection h with hp
      injection hp with ha hb
      subst ha
      subst hb
      exact Or.inr (Or.inl ⟨rfl, rfl⟩)
    | none =>
      rw [h2] at h
      cases h3 : matchSTRING s with
      | some m =>
        rw [h3] at h
        injection h with hp
        injection hp with ha hb
        subst ha
        subst hb
        exact Or.inr (Or.inr (Or.inl ⟨rfl, rfl⟩))
      | none =>
        rw [h3] at h
        cases h4 : matchLit ("@attribute".data) s with
        | some m =>
          rw [h4] at h
          injection h with hp
          injection hp with ha hb
          subst ha
          subst hb
          exact Or.inr (Or.inr (Or.inr (Or.inl ⟨rfl, rfl⟩)))
        | none =>
          rw [h4] at h
          cases h5 : matchLit ("numeric".data) s with
          | some m =>
            rw [h5] at h
            injection h with hp
            injection hp with ha hb
            subst ha
            subst hb
            exact Or.inr (Or.inr (Or.inr (Or.inr (Or.inl ⟨rfl, Or.inl rfl⟩))))
          | none =>
            rw [h5] at h
            cases h6 : matchLit ("integer".data) s with
            | some m =>
              rw [h6] at h
              injection h with hp
              injection hp with ha hb
              subst ha
              subst hb
              exact Or.inr (Or.inr (Or.inr (Or.inr (Or.inl ⟨rfl, Or.inr (Or.inl rfl)⟩))))
            | none =>
              rw [h6] at h
              cases h7 : matchLit ("real".data) s with
              | some m =>
                rw [h7] at h
                injection h with hp
                injection hp with ha hb
                subst ha
                subst hb
                exact Or.inr (Or.inr (Or.inr (Or.inr (Or.inl ⟨rfl, Or.inr (Or.inr rfl)⟩))))
              | none =>
                rw [h7] at h
                cases h8 : matchChar '{' s with
                | some m =>
                  rw [h8] at h
                  injection h with hp
                  injection hp with ha hb
                  subst ha
                  subst hb
                  exact Or.inr (Or.inr (Or.inr (Or.inr (Or.inr (Or.inl ⟨rfl, rfl⟩)))))
                | none =>
                  rw [h8] at h
                  cases h9 : matchChar '}' s with
                  | some m =>
                    rw [h9] at h
                    injection h with hp
                    injection hp with ha hb
                    subst ha
                    subst hb
                    exact Or.inr (Or.inr (Or.inr (Or.inr (Or.inr (Or.inr (Or.inl ⟨rfl, rfl⟩))))))
                  | none =>
                    rw [h9] at h
                    cases h10 : matchChar ',' s with
                    | some m =>
                      rw [h10] at h
                      injection h with hp
                      injection hp with ha hb
                      subst ha
                      subst hb
                      exact Or.inr (Or.inr (Or.inr (Or.inr (Or.inr (Or.inr (Or.inr (Or.inl ⟨rfl, rfl⟩)))))))
                    | none =>
                      rw [h10] at h
                      cases h11 : matchLit ("@data".data) s with
                      | some m =>
                        rw [h11] at h
                        injection h with hp
                        injection hp with ha hb
                        subst ha
                        subst hb
                        exact Or.inr (Or.inr (Or.inr (Or.inr (Or.inr (Or.inr (Or.inr (Or.inr (Or.inl ⟨rfl, rfl⟩))))))))
                      | none =>
                        rw [h11] at h
                        cases h12 : matchChar '?' s with
                        | some m =>
                          rw [h12] at h
                          injection h with hp
                          injection hp with ha hb
                          subst ha
                          subst hb
                          exact Or.inr (Or.inr (Or.inr (Or.inr (Or.inr (Or.inr (Or.inr (Or.inr (Or.inr (Or.inl ⟨rfl, rfl⟩)))))))))
                        | none =>
                          rw [h12] at h
                          cases h13 : matchNUMBER s with
                          | some m =>
                            rw [h13] at h
                            injection h with hp
                            injection hp with ha hb
                            subst ha
                            subst hb
                            exact Or.inr (Or.inr (Or.inr (Or.inr (Or.inr (Or.inr (Or.inr (Or.inr (Or.inr (Or.inr (Or.inl ⟨rfl, rfl⟩))))))))))
                          | none =>
                            rw [h13] at h
                            cases h14 : matchChar '\n' s with
                            | some m =>
                              rw [h14] at h
                              injection h with hp
                              injection hp with ha hb
                              subst ha
                              subst hb
                              exact Or.inr (Or.inr (Or.inr (Or.inr (Or.inr (Or.inr (Or.inr (Or.inr (Or.inr (Or.inr (Or.inr (Or.inl ⟨rfl, rfl⟩)))))))))))
                            | none =>
                              rw [h14] at h
                              cases h15 : matchChar ' ' s with
                              | some m =>
                                rw [h15] at h
                                injection h with hp
                                injection hp with ha hb
                                subst ha
                                subst hb
                                exact Or.inr (Or.inr (Or.inr (Or.inr (Or.inr (Or.inr (Or.inr (Or.inr (Or.inr (Or.inr (Or.inr (Or.inr (⟨rfl, Or.inl rfl⟩))))))))))))
                              | none =>
                                rw [h15] at h
                                cases h16 : matchChar '\t' s with
                                | some m =>
                                  rw [h16] at h
                                  injection h with hp
                                  injection hp with ha hb
                                  subst ha
                                  subst hb
                                  exact Or.inr (Or.inr (Or.inr (Or.inr (Or.inr (Or.inr (Or.inr (Or.inr (Or.inr (Or.inr (Or.inr (Or.inr (⟨rfl, Or.inr rfl⟩))))))))))))
                                | none =>
                                  rw [h16] at h
                                  exact Option.noConfusion h

theorem matchToken_pos (s : List Char) (t : String) (n : Nat)
    (h : matchToken s = some (t, n)) : 1 ≤ n := by
  rcases matchToken_eq_some s t n h with ⟨ht, hm⟩ | ⟨ht, hm⟩ | ⟨ht, hm⟩ | ⟨ht, hm⟩ | ⟨ht, hm | hm | hm⟩ | ⟨ht, hm⟩ | ⟨ht, hm⟩ | ⟨ht, hm⟩ | ⟨ht, hm⟩ | ⟨ht, hm⟩ | ⟨ht, hm⟩ | ⟨ht, hm⟩ | ⟨ht, hm | hm⟩
  · obtain ⟨rest, hs, hn⟩ := matchCOMMENT_eq s n hm
    omega
  · exact matchLit_pos _ _ _ (by decide) hm
  · exact (matchSTRING_eq s n hm).1
  · exact matchLit_pos _ _ _ (by decide) hm
  · exact matchLit_pos _ _ _ (by decide) hm
  · exact matchLit_pos _ _ _ (by decide) hm
  · exact matchLit_pos _ _ _ (by decide) hm
  · have := (matchChar_eq _ s n hm).1
    omega
  · have := (matchChar_eq _ s n hm).1
    omega
  · have := (matchChar_eq _ s n hm).1
    omega
  · exact matchLit_pos _ _ _ (by decide) hm
  · have := (matchChar_eq _ s n hm).1
    omega
  · exact (matchNUMBER_eq s n hm).1
  · have := (matchChar_eq _ s n hm).1
    omega
  · have := (matchChar_eq _ s n hm).1
    omega
  · have := (matchChar_eq _ s n hm).1
    omega

theorem matchToken_le (s : List Char) (t : String) (n : Nat)
    (h : matchToken s = some (t, n)) : n ≤ s.length := by
  rcases matchToken_eq_some s t n h with ⟨ht, hm⟩ | ⟨ht, hm⟩ | ⟨ht, hm⟩ | ⟨ht, hm⟩ | ⟨ht, hm | hm | hm⟩ | ⟨ht, hm⟩ | ⟨ht, hm⟩ | ⟨ht, hm⟩ | ⟨ht, hm⟩ | ⟨ht, hm⟩ | ⟨ht, hm⟩ | ⟨ht, hm⟩ | ⟨ht, hm | hm⟩
  · obtain ⟨rest, hs, hn⟩ := matchCOMMENT_eq s n hm
    subst hs
    have := nonNlRun_le rest
    simp only [List.length_cons]
    omega
  · exact matchLit_le _ _ _ hm
  · exact (matchSTRING_eq s n hm).2.1
  · exact matchLit_le _ _ _ hm
  · exact matchLit_le _ _ _ hm
  · exact matchLit_le _ _ _ hm
  · exact matchLit_le _ _ _ hm
  · obtain ⟨hn1, rest, hs⟩ := matchChar_eq _ s n hm
    subst hs
    simp [hn1]
  · obtain ⟨hn1, rest, hs⟩ := matchChar_eq _ s n hm
    subst hs
    simp [hn1]
  · obtain ⟨hn1, rest, hs⟩ := matchChar_eq _ s n hm
    subst hs
    simp [hn1]
  · exact matchLit_le _ _ _ hm
  · obtain ⟨hn1, rest, hs⟩ := matchChar_eq _ s n hm
    subst hs
    simp [hn1]
  · exact (matchNUMBER_eq s n hm).2.1
  · obtain ⟨hn1, rest, hs⟩ := matchChar_eq _ s n hm
    subst hs
    simp [hn1]
  · obtain ⟨hn1, rest, hs⟩ := matchChar_eq _ s n hm
    subst hs
    simp [hn1]
  · obtain ⟨hn1, rest, hs⟩ := matchChar_eq _ s n hm
    subst hs
    simp [hn1]

theorem matchToken_no_nl (s : List Char) (t : String) (n : Nat)
    (h : matchToken s = some (t, n)) (hnl : t ≠ "NEWLINE") :
    ('\n') ∉ s.take n := by
  intro hmem
  rcases matchToken_eq_some s t n h with ⟨ht, hm⟩ | ⟨ht, hm⟩ | ⟨ht, hm⟩ | ⟨ht, hm⟩ | ⟨ht, hm | hm | hm⟩ | ⟨ht, hm⟩ | ⟨ht, hm⟩ | ⟨ht, hm⟩ | ⟨ht, hm⟩ | ⟨ht, hm⟩ | ⟨ht, hm⟩ | ⟨ht, hm⟩ | ⟨ht, hm | hm⟩
  · obtain ⟨rest, hs, hn⟩ := matchCOMMENT_eq s n hm
    subst hs
    subst hn
    rw [Nat.add_comm 1 (nonNlRun rest), List.take_succ_cons] at hmem
    rcases List.mem_cons.mp hmem with h1 | h1
    · exact absurd h1 (by decide)
    · exact nonNlRun_chars rest '\n' h1 rfl
  · exact absurd (matchLit_chars _ _ _ hm '\n' hmem) (by decide)
  · exact absurd ((matchSTRING_eq s n hm).2.2 '\n' hmem) (by decide)
  · exact absurd (matchLit_chars _ _ _ hm '\n' hmem) (by decide)
  · exact absurd (matchLit_chars _ _ _ hm '\n' hmem) (by decide)
  · exact absurd (matchLit_chars _ _ _ hm '\n' hmem) (by decide)
  · exact absurd (matchLit_chars _ _ _ hm '\n' hmem) (by decide)
  · obtain ⟨hn1, rest, hs⟩ := matchChar_eq _ s n hm
    subst hs
    subst hn1
    rw [List.take_succ_cons, List.take_zero] at hmem
    exact absurd (List.mem_singleton.mp hmem) (by decide)
  · obtain ⟨hn1, rest, hs⟩ := matchChar_eq _ s n hm
    subst hs
    subst hn1
    rw [List.take_succ_cons, List.take_zero] at hmem
    exact absurd (List.mem_singleton.mp hmem) (by decide)
  · obtain ⟨hn1, rest, hs⟩ := matchChar_eq _ s n hm
    subst hs
    subst hn1
    rw [List.take_succ_cons, List.take_zero] at hmem
    exact absurd (List.mem_singleton.mp hmem) (by decide)
  · exact absurd (matchLit_chars _ _ _ hm '\n' hmem) (by decide)
  · obtain ⟨hn1, rest, hs⟩ := matchChar_eq _ s n hm
    subst hs
    subst hn1
    rw [List.take_succ_cons, List.take_zero] at hmem
    exact absurd (List.mem_singleton.mp hmem) (by decide)
  · rcases (matchNUMBER_eq s n hm).2.2 '\n' hmem with h1 | h1
    · exact absurd h1 (by decide)
    · exact absurd h1 (by decide)
  · exact absurd ht hnl
  · obtain ⟨hn1, rest, hs⟩ := matchChar_eq _ s n hm
    subst hs
    subst hn1
    rw [List.take_succ_cons, List.take_zero] at hmem
    exact absurd (List.mem_singleton.mp hmem) (by decide)
  · obtain ⟨hn1, rest, hs⟩ := matchChar_eq _ s n hm
    subst hs
    subst hn1
    rw [List.take_succ_cons, List.take_zero] at hmem
    exact absurd (List.mem_singleton.mp hmem) (by decide)

theorem matchToken_newline (s : List Char) (n : Nat)
    (h : matchToken s = some ("NEWLINE", n)) :
    n = 1 ∧ ∃ rest, s = '\n' :: rest := by
  rcases matchToken_eq_some s "NEWLINE" n h with ⟨ht, hm⟩ | ⟨ht, hm⟩ | ⟨ht, hm⟩ | ⟨ht, hm⟩ | ⟨ht, hm | hm | hm⟩ | ⟨ht, hm⟩ | ⟨ht, hm⟩ | ⟨ht, hm⟩ | ⟨ht, hm⟩ | ⟨ht, hm⟩ | ⟨ht, hm⟩ | ⟨ht, hm⟩ | ⟨ht, hm | hm⟩
  · exact absurd ht (by decide)
  · exact absurd ht (by decide)
  · exact absurd ht (by decide)
  · exact absurd ht (by decide)
  · exact absurd ht (by decide)
  · exact absurd ht (by decide)
  · exact absurd ht (by decide)
  · exact absurd ht (by decide)
  · exact absurd ht (by decide)
  · exact absurd ht (by decide)
  · exact absurd ht (by decide)
  · exact absurd ht (by decide)
  · exact absurd ht (by decide)
  · exact matchChar_eq _ s n hm
  · exact absurd ht (by decide)
  · exact absurd ht (by decide)

theorem tokenizeLoop_error (s : List Char) :
    ∀ (fuel pos line lineStart : Nat) (acc : List Token) (e : LexError),
      pos ≤ s.length → s.length < fuel + pos →
      line = 1 + (s.take pos).count '\n' →
      tokenizeLoop s fuel pos line lineStart acc = .error e →
      ∃ q, q < s.length ∧ matchToken (s.drop q) = none ∧
        e.char = s.getD q ' ' ∧ e.line = 1 + (s.take q).count '\n' := by
  intro fuel
  induction fuel with
  | zero =>
    intro pos line lineStart acc e hpos hfuel hline h
    omega
  | succ f ih =>
    intro pos line lineStart acc e hpos hfuel hline h
    rw [tokenizeLoop] at h
    cases hm : matchToken (s.drop pos) with
    | none =>
      rw [hm] at h
      simp only [] at h
      by_cases hend : pos ≠ s.length
      · rw [if_pos hend] at h
        injection h with h
        subst h
        exact ⟨pos, by omega, hm, rfl, hline⟩
      · rw [if_neg hend] at h
        exact Except.noConfusion h
    | some tn =>
      obtain ⟨typ, n⟩ := tn
      rw [hm] at h
      simp only [] at h
      have hn1 : 1 ≤ n := matchToken_pos _ _ _ hm
      have hnle : n ≤ (s.drop pos).length := matchToken_le _ _ _ hm
      rw [List.length_drop] at hnle
      by_cases hnl : typ = "NEWLINE"
      · subst hnl
        rw [if_pos rfl] at h
        obtain ⟨hn, rest, hrest⟩ := matchToken_newline _ _ hm
        subst hn
        refine ih (pos + 1) (line + 1) pos acc e (by omega) (by omega) ?_ h
        have hc : (s.take (pos + 1)).count '\n' = (s.take pos).count '\n' + 1 := by
          rw [List.take_add, List.count_append, hrest]
          simp
        omega
      · rw [if_neg hnl] at h
        have hcount : (s.take (pos + n)).count '\n' = (s.take pos).count '\n' := by
          rw [List.take_add, List.count_append]
          have hz : ((s.drop pos).take n).count '\n' = 0 :=
            List.count_eq_zero.mpr (matchToken_no_nl _ _ _ hm hnl)
          omega
        by_cases hskip : typ = "SKIP" ∨ typ = "COMMENT"
        · rw [if_pos hskip] at h
          exact ih (pos + n) line lineStart acc e (by omega) (by omega)
            (by rw [hline, hcount]) h
        · rw [if_neg hskip] at h
          exact ih (pos + n) line lineStart _ e (by omega) (by omega)
            (by rw [hline, hcount]) h

theorem tokenize_error_report (s : String) (e : LexError)
    (h : tokenize s = .error e) :
    ∃ q, q < s.data.length ∧ matchToken (s.data.drop q) = none ∧
      e.char = s.data.getD q ' ' ∧ e.line = 1 + (s.data.take q).count '\n' :=
  tokenizeLoop_error s.data (s.data.length + 1) 0 1 0 [] e (Nat.zero_le _)
    (by omega) (by simp) h

/-! ### The Structural Reader (Parser)

One-token-lookahead recursive descent over the token list. `accept` consumes
a token of the given kind or fails with the code's (typo included) message;
`expectTok` is the non-consuming peek, false at end of input. The `while`
loops of `attributes`/`nominal_values`/`data` are embedded with a structural
fuel parameter of one more than the token-list length — every iteration
consumes at least one token, so the out-of-fuel branch is unreachable from
the entry points. Only a token's kind and value are ever inspected. -/

abbrev Tokens := List Token

def accept (typ : String) : Tokens → Except String (Token × Tokens)
  | [] => .error ("Cannot acccept " ++ typ)
  | t :: rest => if t.typ = typ then .ok (t, rest) else .error ("Cannot acccept " ++ typ)

def expectTok (typ : String) : Tokens → Bool
  | [] => false
  | t :: _ => t.typ = typ

def nomLoop (fuel : Nat) (acc : List String) (ts : Tokens) :
    Except String (List String × Tokens) :=
  match fuel with
  | 0 => .error "out of fuel"
  | f + 1 =>
    if expectTok "COMMA" ts then
      match accept "COMMA" ts with
      | .error e => .error e
      | .ok (_, ts₁) =>
        match accept "STRING" ts₁ with
        | .error e => .error e
        | .ok (nomx, ts₂) => nomLoop f (acc ++ [nomx.value]) ts₂
    else
      match accept "RIGHT_CURLY" ts with
      | .error e => .error e
      | .ok (_, ts₁) => .ok (acc, ts₁)

def nominal_values (ts : Tokens) : Except String (List String × Tokens) :=
  match accept "STRING" ts with
  | .error e => .error e
  | .ok (nom1, ts₁) => nomLoop (ts₁.length + 1) [nom1.value] ts₁

def attrLoop (fuel : Nat) (dict : List (String × List String)) (ts : Tokens) :
    Except String (List (String × List String) × Tokens) :=
  match fuel with
  | 0 => .error "out of fuel"
  | f + 1 =>
    if expectTok "ATTR_DECL" ts then
      match accept "ATTR_DECL" ts with
      | .error e => .error e
      | .ok (_, ts₁) =>
        match accept "STRING" ts₁ with
        | .error e => .error e
        | .ok (attr_name, ts₂) =>
          if expectTok "NUM_DATATYPE" ts₂ then
            match accept "NUM_DATATYPE" ts₂ with
            | .error e => .error e
            | .ok (_, ts₃) => attrLoop f dict ts₃
          else if expectTok "LEFT_CURLY" ts₂ then
            match accept "LEFT_CURLY" ts₂ with
            | .error e => .error e
            | .ok (_, ts₃) =>
              match nominal_values ts₃ with
              | .error e => .error e
              | .ok (vals, ts₄) => attrLoop f (odInsert dict attr_name.value vals) ts₄
          else .error "Not implemented"
    else .ok (dict, ts)

def Parser.attributes (ts : Tokens) :
    Except String (List (String × List String) × Tokens) :=
  attrLoop (ts.length + 1) [] ts

def rowLoop (fuel : Nat) (attrIter : List String) (ex : Example) (ts : Tokens) :
    Except String (Example × Tokens) :=
  match fuel with
  | 0 => .error "out of fuel"
  | f + 1 =>
    if expectTok "COMMA" ts then
      match accept "COMMA" ts with
      | .error e => .error e
      | .ok (_, ts₁) =>
        match accept "STRING" ts₁ with
        | .error e => .error e
        | .ok (data, ts₂) =>
          match attrIter with
          | [] => .error "StopIteration"
          | a :: rest => rowLoop f rest (odInsert ex a data.value) ts₂
    else .ok (ex, ts)

def dataLoop (fuel : Nat) (attrsKeys : List String) (examples : List Example)
    (ts : Tokens) : Except String (List Example × Tokens) :=
  match fuel with
  | 0 => .error "out of fuel"
  | f + 1 =>
    if expectTok "STRING" ts then
      match accept "STRING" ts with
      | .error e => .error e
      | .ok (data1, ts₁) =>
        match attrsKeys with
        | [] => .error "StopIteration"
        | a :: rest =>
          match rowLoop (ts₁.length + 1) rest (odInsert [] a data1.value) ts₁ with
          | .error e => .error e
          | .ok (ex, ts₂) => dataLoop f attrsKeys (examples ++ [ex]) ts₂
    else .ok (examples, ts)

def Parser.data (attrsKeys : List String) (ts : Tokens) :
    Except String (List Example × Tokens) :=
  match accept "DATA_DECL" ts with
  | .error e => .error e
  | .ok (_, ts₁) => dataLoop (ts₁.length + 1) attrsKeys [] ts₁

structure Data where
  relation : String
  attributes : List (String × List String)
  examples : List Example
deriving DecidableEq

def Parser.parse (ts : Tokens) : Except String Data :=
  match accept "RELATION_DECL" ts with
  | .error e => .error e
  | .ok (_, ts₁) =>
    match accept "STRING" ts₁ with
    | .error e => .error e
    | .ok (rel, ts₂) =>
      match Parser.attributes ts₂ with
      | .error e => .error e
      | .ok (attrs, ts₃) =>
        if expectTok "DATA_DECL" ts₃ then
          match Parser.data (attrs.map Prod.fst) ts₃ with
          | .error e => .error e
          | .ok (exs, _) => .ok ⟨rel.value, attrs, exs⟩
        else .error "No DATA section found!"

def parseSrc (s : String) : Except String Data :=
  match tokenize s with
  | .error e => .error ("Unexpected character " ++ String.mk [e.char]
      ++ " on line " ++ toString e.line)
  | .ok ts => Parser.parse ts

/-! ### Generative descriptions of well-formed token streams

`arffToks` renders an abstract ARFF description (relation name, nominal
attribute declarations, data rows) into the token stream the lexer would
produce for it; the spec lemmas below run the reader over these streams.
Line/column metadata is fixed to zero — the reader never reads it. -/

def mkTok (typ val : String) : Token := ⟨typ, val, 0, 0⟩

def commaStrToks (vs : List String) : Tokens :=
  vs.flatMap (fun v => [mkTok "COMMA" ",", mkTok "STRING" v])

def attrToks (name : String) (vals : List String) : Tokens :=
  [mkTok "ATTR_DECL" "@attribute", mkTok "STRING" name, mkTok "LEFT_CURLY" "\x7b"]
    ++ (match vals with
        | [] => []
        | v :: vs => mkTok "STRING" v :: commaStrToks vs)
    ++ [mkTok "RIGHT_CURLY" "\x7d"]

def rowToks (fields : List String) : Tokens :=
  match fields with
  | [] => []
  | f :: fs => mkTok "STRING" f :: commaStrToks fs

def arffToks (rel : String) (attrs : List (String × List String))
    (rows : List (List String)) : Tokens :=
  mkTok "RELATION_DECL" "@relation" :: mkTok "STRING" rel
    :: (attrs.flatMap (fun a => attrToks a.1 a.2)
      ++ mkTok "DATA_DECL" "@data" :: rows.flatMap rowToks)

@[simp] theorem mkTok_typ (typ val : String) : (mkTok typ val).typ = typ := rfl

@[simp] theorem mkTok_value (typ val : String) : (mkTok typ val).value = val := rfl

@[simp] theorem expectTok_nil (typ : String) : expectTok typ [] = false := rfl

@[simp] theorem expectTok_cons (typ : String) (t : Token) (ts : Tokens) :
    expectTok typ (t :: ts) = decide (t.typ = typ) := rfl

@[simp] theorem accept_cons (typ : String) (t : Token) (ts : Tokens) :
    accept typ (t :: ts)
      = if t.typ = typ then .ok (t, ts) else .error ("Cannot acccept " ++ typ) := rfl

theorem commaStrToks_length (vs : List String) :
    (commaStrToks vs).length = 2 * vs.length := by
  induction vs with
  | nil => rfl
  | cons v vs ih => simp [commaStrToks, List.flatMap_cons] at ih ⊢; omega

theorem nomLoop_spec : ∀ (vs acc : List String) (rest : Tokens) (fuel : Nat),
    vs.length < fuel →
    nomLoop fuel acc (commaStrToks vs ++ mkTok "RIGHT_CURLY" "\x7d" :: rest)
      = .ok (acc ++ vs, rest) := by
  intro vs
  induction vs with
  | nil =>
    intro acc rest fuel hf
    match fuel, hf with
    | f + 1, _ =>
      rw [nomLoop]
      simp [commaStrToks]
  | cons v vs ih =>
    intro acc rest fuel hf
    match fuel, hf with
    | f + 1, hf =>
      rw [nomLoop]
      have ihh := ih (acc ++ [v]) rest f (by simp at hf; omega)
      rw [commaStrToks] at ihh
      simp [commaStrToks, List.flatMap_cons, ihh]

theorem nominal_values_spec (v : String) (vs : List String) (rest : Tokens) :
    nominal_values (mkTok "STRING" v :: (commaStrToks vs
        ++ mkTok "RIGHT_CURLY" "\x7d" :: rest))
      = .ok (v :: vs, rest) := by
  rw [nominal_values]
  have hlen : vs.length < (commaStrToks vs ++ mkTok "RIGHT_CURLY" "\x7d" :: rest).length + 1 := by
    rw [List.length_append, commaStrToks_length]
    simp only [List.length_cons]
    omega
  simp only [accept_cons, mkTok_typ, if_pos rfl, mkTok_value]
  exact (nomLoop_spec vs [v] rest _ hlen).trans (by simp)

theorem foldl_odInsert_fresh {β : Type} :
    ∀ (ps init : List (String × β)),
      (ps.map Prod.fst).Nodup → (∀ q ∈ ps, ∀ p ∈ init, p.1 ≠ q.1) →
      ps.foldl (fun d q => odInsert d q.1 q.2) init = init ++ ps
  | [], init, _, _ => by simp
  | q :: ps, init, hnd, hdisj => by
    have hstep : odInsert init q.1 q.2 = init ++ [q] := by
      rw [odInsert_of_not_mem_keys init q.1 q.2
        (fun p hp => hdisj q (List.mem_cons_self _ _) p hp)]
    have hnd' : (ps.map Prod.fst).Nodup := by
      rw [List.map_cons] at hnd
      exact (List.nodup_cons.mp hnd).2
    have hq : q.1 ∉ ps.map Prod.fst := by
      rw [List.map_cons] at hnd
      exact (List.nodup_cons.mp hnd).1
    have hdisj' : ∀ q' ∈ ps, ∀ p ∈ init ++ [q], p.1 ≠ q'.1 := by
      intro q' hq' p hp
      rcases List.mem_append.mp hp with h1 | h1
      · exact hdisj q' (List.mem_cons_of_mem _ hq') p h1
      · simp only [List.mem_singleton] at h1
        subst h1
        intro hc
        exact hq (hc ▸ List.mem_map_of_mem Prod.fst hq')
    calc (q :: ps).foldl (fun d q => odInsert d q.1 q.2) init
        = ps.foldl (fun d q => odInsert d q.1 q.2) (init ++ [q]) := by
          rw [List.foldl_cons, hstep]
      _ = (init ++ [q]) ++ ps := foldl_odInsert_fresh ps (init ++ [q]) hnd' hdisj'
      _ = init ++ q :: ps := by simp

theorem attrToks_cons (name v : String) (vs : List String) :
    attrToks name (v :: vs)
      = mkTok "ATTR_DECL" "@attribute" :: mkTok "STRING" name
        :: mkTok "LEFT_CURLY" "\x7b" :: mkTok "STRING" v
        :: (commaStrToks vs ++ [mkTok "RIGHT_CURLY" "\x7d"]) := by
  rw [attrToks]
  simp

theorem attrLoop_spec :
    ∀ (attrs : List (String × List String)) (dict : List (String × List String))
      (rest : Tokens) (fuel : Nat),
      (∀ a ∈ attrs, a.2 ≠ []) → attrs.length < fuel →
      expectTok "ATTR_DECL" rest = false →
      attrLoop fuel dict (attrs.flatMap (fun a => attrToks a.1 a.2) ++ rest)
        = .ok (attrs.foldl (fun d a => odInsert d a.1 a.2) dict, rest) := by
  intro attrs
  induction attrs with
  | nil =>
    intro dict rest fuel hvals hf hrest
    match fuel, hf with
    | f + 1, _ =>
      rw [attrLoop]
      simp [hrest]
  | cons a attrs ih =>
    intro dict rest fuel hvals hf hrest
    match fuel, hf with
    | f + 1, hf =>
      obtain ⟨name, vals⟩ := a
      have hv : vals ≠ [] := hvals (name, vals) (List.mem_cons_self _ _)
      obtain ⟨v, vs, rfl⟩ := List.exists_cons_of_ne_nil hv
      rw [attrLoop, List.flatMap_cons, attrToks_cons]
      have hnv := nominal_values_spec v vs
        (attrs.flatMap (fun a => attrToks a.1 a.2) ++ rest)
      have ihh := ih (odInsert dict name (v :: vs)) rest f
        (fun a ha => hvals a (List.mem_cons_of_mem _ ha)) (by simp at hf; omega) hrest
      simp only [List.cons_append, List.append_assoc, List.singleton_append]
      simp [hnv, ihh]

theorem rowLoop_spec :
    ∀ (fs attrRest : List String) (ex : Example) (rest : Tokens) (fuel : Nat),
      fs.length < fuel → fs.length ≤ attrRest.length →
      expectTok "COMMA" rest = false →
      rowLoop fuel attrRest ex (commaStrToks fs ++ rest)
        = .ok ((attrRest.zip fs).foldl (fun e p => odInsert e p.1 p.2) ex, rest) := by
  intro fs
  induction fs with
  | nil =>
    intro attrRest ex rest fuel hf _ hrest
    match fuel, hf with
    | f + 1, _ =>
      rw [rowLoop]
      simp [commaStrToks, hrest]
  | cons fv fs ih =>
    intro attrRest ex rest fuel hf hlen hrest
    match fuel, hf with
    | f + 1, hf =>
      match attrRest, hlen with
      | a :: arest, hlen =>
        rw [rowLoop]
        have ihh := ih arest (odInsert ex a fv) rest f (by simp at hf; omega)
          (by simp at hlen; omega) hrest
        simp only [commaStrToks, List.flatMap_cons, List.cons_append, List.nil_append,
          List.append_assoc]
        rw [show (fs.flatMap fun v => [mkTok "COMMA" ",", mkTok "STRING" v])
            = commaStrToks fs from rfl]
        simp [ihh]

theorem rowToks_cons (f : String) (fs : List String) :
    rowToks (f :: fs) = mkTok "STRING" f :: commaStrToks fs := rfl

theorem dataLoop_spec :
    ∀ (rows : List (List String)) (attrsKeys : List String)
      (examples : List Example) (rest : Tokens) (fuel : Nat),
      (∀ r ∈ rows, r.length = attrsKeys.length) → 0 < attrsKeys.length →
      rows.length < fuel →
      expectTok "STRING" rest = false → expectTok "COMMA" rest = false →
      dataLoop fuel attrsKeys examples (rows.flatMap rowToks ++ rest)
        = .ok (examples ++ rows.map
            (fun r => (attrsKeys.zip r).foldl (fun e p => odInsert e p.1 p.2) []),
            rest) := by
  intro rows
  induction rows with
  | nil =>
    intro attrsKeys examples rest fuel _ _ hf hrest _
    match fuel, hf with
    | f + 1, _ =>
      rw [dataLoop]
      simp [hrest]
  | cons r rows ih =>
    intro attrsKeys examples rest fuel hrows hk hf hrest hrestc
    match fuel, hf with
    | f + 1, hf =>
      have hr : r.length = attrsKeys.length := hrows r (List.mem_cons_self _ _)
      have hrnil : r ≠ [] := by
        intro hc
        subst hc
        simp at hr
        omega
      obtain ⟨fv, fs, rfl⟩ := List.exists_cons_of_ne_nil hrnil
      have hknil : attrsKeys ≠ [] := by
        intro hc
        subst hc
        simp at hk
      obtain ⟨a, arest, rfl⟩ := List.exists_cons_of_ne_nil hknil
      · rw [dataLoop, List.flatMap_cons, rowToks_cons]
        have hcomma : expectTok "COMMA" (rows.flatMap rowToks ++ rest) = false := by
          cases hrw : rows with
          | nil => simpa using hrestc
          | cons r' rows' =>
            have hr' : r'.length = (a :: arest).length :=
              hrows r' (by rw [hrw]; exact List.mem_cons_of_mem _ (List.mem_cons_self _ _))
            match r', hr' with
            | fv' :: fs', _ =>
              rw [List.flatMap_cons, rowToks_cons]
              simp
        have hrl : fs.length < (commaStrToks fs ++ (rows.flatMap rowToks ++ rest)).length + 1 := by
          rw [List.length_append, commaStrToks_length]
          omega
        have hrow := rowLoop_spec fs arest (odInsert [] a fv)
          (rows.flatMap rowToks ++ rest) _ hrl (by simp at hr; omega) hcomma
        have ihh := ih (a :: arest)
          (examples ++ [(arest.zip fs).foldl (fun e p => odInsert e p.1 p.2)
            (odInsert [] a fv)])
          rest f (fun r hr2 => hrows r (List.mem_cons_of_mem _ hr2)) hk
          (by simp at hf; omega) hrest hrestc
        simp [odInsert] at hrow ihh
        simp only [List.cons_append, List.append_assoc]
        simp [hrow, ihh, List.zip_cons_cons, odInsert]

theorem le_length_flatMap {α β : Type} (f : α → List β) :
    ∀ (l : List α), (∀ a ∈ l, f a ≠ []) → l.length ≤ (l.flatMap f).length := by
  intro l
  induction l with
  | nil => simp
  | cons a l ih =>
    intro h
    rw [List.flatMap_cons, List.length_append, List.length_cons]
    have h1 : 1 ≤ (f a).length :=
      List.length_pos.mpr (h a (List.mem_cons_self _ _))
    have h2 := ih (fun a ha => h a (List.mem_cons_of_mem _ ha))
    omega

theorem parse_spec (rel : String) (attrs : List (String × List String))
    (rows : List (List String))
    (h1 : ∀ a ∈ attrs, a.2 ≠ []) (h2 : (attrs.map Prod.fst).Nodup)
    (h3 : 0 < attrs.length) (h4 : ∀ r ∈ rows, r.length = attrs.length) :
    Parser.parse (arffToks rel attrs rows)
      = .ok ⟨rel, attrs, rows.map (fun r => (attrs.map Prod.fst).zip r)⟩ := by
  have hkeys : (attrs.map Prod.fst).length = attrs.length := List.length_map _ _
  have hattrne : ∀ a ∈ attrs, attrToks a.1 a.2 ≠ [] := by
    intro a ha
    obtain ⟨v, vs, he⟩ := List.exists_cons_of_ne_nil (h1 a ha)
    rw [he, attrToks_cons]
    simp
  have hflatlen := le_length_flatMap (fun a => attrToks a.1 a.2) attrs hattrne
  have hrowsne : ∀ r ∈ rows, rowToks r ≠ [] := by
    intro r hr
    have := h4 r hr
    have hrne : r ≠ [] := by
      intro hc
      subst hc
      simp at this
      omega
    obtain ⟨fv, fs, he⟩ := List.exists_cons_of_ne_nil hrne
    rw [he, rowToks_cons]
    simp
  have hrowlen := le_length_flatMap rowToks rows hrowsne
  have hattr := attrLoop_spec attrs []
    (mkTok "DATA_DECL" "@data" :: rows.flatMap rowToks)
    ((attrs.flatMap (fun a => attrToks a.1 a.2)
      ++ (mkTok "DATA_DECL" "@data" :: rows.flatMap rowToks)).length + 1)
    h1 (by rw [List.length_append]; omega) (by simp)
  have hfold : attrs.foldl (fun d a => odInsert d a.1 a.2) [] = attrs := by
    simpa using foldl_odInsert_fresh attrs [] h2 (by simp)
  rw [hfold] at hattr
  have hdata := dataLoop_spec rows (attrs.map Prod.fst) [] []
    ((rows.flatMap rowToks).length + 1)
    (fun r hr => by rw [h4 r hr, hkeys]) (by rw [hkeys]; exact h3)
    (by omega) (by simp) (by simp)
  rw [List.append_nil] at hdata
  have hzip : rows.map (fun r =>
      ((attrs.map Prod.fst).zip r).foldl (fun e p => odInsert e p.1 p.2) [])
      = rows.map (fun r => (attrs.map Prod.fst).zip r) := by
    apply List.map_congr_left
    intro r hr
    have hnd : (((attrs.map Prod.fst).zip r).map Prod.fst).Nodup := by
      rw [List.map_fst_zip _ _ (by rw [hkeys, h4 r hr])]
      exact h2
    simpa using foldl_odInsert_fresh ((attrs.map Prod.fst).zip r) [] hnd (by simp)
  rw [hzip] at hdata
  rw [Parser.parse, arffToks]
  simp only [Parser.attributes, Parser.data]
  simp at hattr hdata
  simp [hattr, hdata]

/-! ### Claim theorems -/

/-- C1: the induction engine applies its four cases in the specified order:
empty current subset → plurality label of the parent subset; all examples
share one classification → that bare label; no candidate attributes →
plurality label of the current subset; otherwise it splits on the
maximum-score attribute and, for each value observed for that attribute in
the current examples (in observation order), recurses on the examples whose
attribute equals that value, with the chosen attribute removed from the
candidates and the current (unfiltered) subset as the parent subset, bare
labels being wrapped as `Leaf` children; and
`multiclass_decision_tree_learning` is the same engine with the generalized
entropy policy hard-wired. -/
theorem decision_tree_learning_case_order {α : Type} [LinearOrder α] [DecidableEq α]
    (examples : List Example) (attributes : List String)
    (parent_examples : List Example) (imp : String → List Example → α) :
    (examples = [] →
      decision_tree_learning examples attributes parent_examples imp
        = .label (plurality_value parent_examples)) ∧
    (∀ e rest, examples = e :: rest →
      examples_have_same_classification examples = true →
      decision_tree_learning examples attributes parent_examples imp
        = .label (classificationOf e)) ∧
    (examples ≠ [] → examples_have_same_classification examples = false →
      attributes = [] →
      decision_tree_learning examples attributes parent_examples imp
        = .label (plurality_value examples)) ∧
    (examples ≠ [] → examples_have_same_classification examples = false →
      attributes ≠ [] →
      decision_tree_learning examples attributes parent_examples imp
        = .tree (.node (chooseAttr imp attributes examples)
            ((get_attribute_values (chooseAttr imp attributes examples) examples).map
              (fun vk => (vk, toSubtree (decision_tree_learning
                (examples.filter (fun e =>
                  decide (elookup e (chooseAttr imp attributes examples) = some vk)))
                (attributes.filter (fun a =>
                  decide (a ≠ chooseAttr imp attributes examples)))
                examples imp)))))) ∧
    (∀ classes : List String,
      multiclass_decision_tree_learning examples attributes parent_examples classes
        = decision_tree_learning examples attributes parent_examples
            (fun a exs => generalised_entropy_importance a exs classes)) :=
  ⟨(dtl_case_equations examples attributes parent_examples imp).1,
   (dtl_case_equations examples attributes parent_examples imp).2.1,
   (dtl_case_equations examples attributes parent_examples imp).2.2.1,
   (dtl_case_equations examples attributes parent_examples imp).2.2.2,
   fun _ => rfl⟩

/-- Witness for C1: each of the four cases and the multiclass coincidence,
evaluated at concrete inputs drawn from the restaurant scenario. -/
theorem decision_tree_learning_case_order_witness :
    decision_tree_learning ([] : List Example) ["Patrons"] restaurantExamples
      basic_importance = .label "No" ∧
    decision_tree_learning [restaurantEx2, restaurantEx3] ["Patrons", "Hungry"]
      restaurantExamples basic_importance = .label "Yes" ∧
    decision_tree_learning [restaurantEx1, restaurantEx2] ([] : List String)
      restaurantExamples basic_importance = .label "No" ∧
    decision_tree_learning restaurantExamples ["Patrons", "Hungry"]
      restaurantExamples basic_importance
      = .tree (.node "Patrons" [("None", .leaf "No"), ("Some", .leaf "Yes"),
          ("Full", .node "Hungry" [("Yes", .leaf "Yes"), ("No", .leaf "No")])]) ∧
    multiclass_decision_tree_learning restaurantExamples ["Patrons", "Hungry"]
      restaurantExamples ["Yes", "No"]
      = decision_tree_learning restaurantExamples ["Patrons", "Hungry"]
          restaurantExamples
          (fun a exs => generalised_entropy_importance a exs ["Yes", "No"]) :=
  ⟨((decision_tree_learning_case_order [] ["Patrons"] restaurantExamples
      basic_importance).1 rfl).trans (by decide),
   ((decision_tree_learning_case_order [restaurantEx2, restaurantEx3]
      ["Patrons", "Hungry"] restaurantExamples basic_importance).2.1
      restaurantEx2 [restaurantEx3] rfl (by decide)).trans (by decide),
   ((decision_tree_learning_case_order [restaurantEx1, restaurantEx2] []
      restaurantExamples basic_importance).2.2.1 (by decide) (by decide) rfl).trans
      (by decide),
   ((decision_tree_learning_case_order restaurantExamples ["Patrons", "Hungry"]
      restaurantExamples basic_importance).2.2.2.1 (by decide) (by decide)
      (by decide)).trans (by decide),
   (decision_tree_learning_case_order restaurantExamples ["Patrons", "Hungry"]
      restaurantExamples
      (fun a exs => generalised_entropy_importance a exs ["Yes", "No"])).2.2.2.2
      ["Yes", "No"]⟩

/-- C4: on the four restaurant-scenario examples, the binary-entropy gain of
`"Patrons"` coincides exactly with the generalized multiclass gain over the
two classes `["Yes", "No"]` (both equal `1/2`). -/
theorem entropy_importance_matches_generalised_on_restaurant :
    entropy_importance "Patrons" restaurantExamples
      = generalised_entropy_importance "Patrons" restaurantExamples ["Yes", "No"] := by
  have hvals : get_attribute_values "Patrons" restaurantExamples
      = ["None", "Some", "Full"] := by decide
  have hs1 : restaurantExamples.filter (fun e => decide (eget e "Patrons" = "None"))
      = [restaurantEx1] := by decide
  have hs2 : restaurantExamples.filter (fun e => decide (eget e "Patrons" = "Some"))
      = [restaurantEx2] := by decide
  have hs3 : restaurantExamples.filter (fun e => decide (eget e "Patrons" = "Full"))
      = [restaurantEx3, restaurantEx4] := by decide
  have hlhs : entropy_importance "Patrons" restaurantExamples = 1/2 := by
    rw [entropy_importance, hvals]
    simp only [hs1, hs2, hs3, List.map_cons, List.map_nil, List.sum_cons, List.sum_nil]
    norm_num [show countClass restaurantExamples "Yes" = 2 from by decide,
      show countClass restaurantExamples "No" = 2 from by decide,
      show countClass [restaurantEx1] "Yes" = 0 from by decide,
      show countClass [restaurantEx1] "No" = 1 from by decide,
      show countClass [restaurantEx2] "Yes" = 1 from by decide,
      show countClass [restaurantEx2] "No" = 0 from by decide,
      show countClass [restaurantEx3, restaurantEx4] "Yes" = 1 from by decide,
      show countClass [restaurantEx3, restaurantEx4] "No" = 1 from by decide]
    rw [B_half, B_zero, B_one]
    norm_num
  have hrhs : generalised_entropy_importance "Patrons" restaurantExamples
      ["Yes", "No"] = 1/2 := by
    rw [generalised_entropy_importance, hvals]
    simp only [hs1, hs2, hs3, List.map_cons, List.map_nil, List.sum_cons, List.sum_nil,
      List.length_cons, List.length_nil]
    norm_num [show countClass restaurantExamples "Yes" = 2 from by decide,
      show countClass restaurantExamples "No" = 2 from by decide,
      show countClass [restaurantEx1] "Yes" = 0 from by decide,
      show countClass [restaurantEx1] "No" = 1 from by decide,
      show countClass [restaurantEx2] "Yes" = 1 from by decide,
      show countClass [restaurantEx2] "No" = 0 from by decide,
      show countClass [restaurantEx3, restaurantEx4] "Yes" = 1 from by decide,
      show countClass [restaurantEx3, restaurantEx4] "No" = 1 from by decide,
      show restaurantExamples.length = 4 from by decide, gB_zero, gB_one,
      show (2:ℝ)/4 = 1/2 from by norm_num, gB_half]
  rw [hlhs, hrhs]

/-- The tree the engine induces from the restaurant scenario, used as a
concrete trained tree. -/
def restaurantTree : DecisionTree :=
  .node "Patrons" [("None", .leaf "No"), ("Some", .leaf "Yes"),
    ("Full", .node "Hungry" [("Yes", .leaf "Yes"), ("No", .leaf "No")])]

/-- C6: evaluating an example whose value for the current split attribute has
no matching branch yields the distinguishable unknown-value error carrying
that value and attribute (the caller can catch and tally it), never a normal
classification result; and when every value met during the descent has a
matching branch, `eval` descends to a leaf and returns its classification. -/
theorem eval_unknown_value_error_or_leaf :
    (∀ (a : String) (bs : List (String × DecisionTree)) (e : Example),
      branchLookup (eget e a) bs = none →
      DecisionTree.eval (.node a bs) e = .error (eget e a, a)) ∧
    (∀ (t : DecisionTree) (e : Example), allMatch t e →
      ∃ v, DecisionTree.eval t e = .ok v) := by
  constructor
  · intro a bs e hnone
    rw [DecisionTree.eval, evalBranches_eq, hnone]
  · exact allMatch_eval_ok

/-- Witness for C6: on the restaurant tree, a `"Patrons"` value unseen during
training is reported as the catchable error, and a fully matching example
evaluates to a leaf's label. -/
theorem eval_unknown_value_error_or_leaf_witness :
    DecisionTree.eval restaurantTree [("Patrons", "Empty"), ("Hungry", "Yes")]
      = .error ("Empty", "Patrons") ∧
    ∃ v, DecisionTree.eval restaurantTree [("Patrons", "None"), ("Hungry", "Yes")]
      = .ok v :=
  ⟨(eval_unknown_value_error_or_leaf.1 "Patrons" _ _ (by decide)).trans (by decide),
   eval_unknown_value_error_or_leaf.2 restaurantTree _
     (by simp [allMatch, allMatchBranches, restaurantTree, eget, elookup])⟩

/-- C9: the binary entropy function satisfies `B(0) = 0` and `B(1) = 0` (the
logarithm's singular points are guarded by definition) and `B(0.5) = 1`
(entropy is maximized at an even split). -/
theorem B_boundary_values_and_even_split : B 0 = 0 ∧ B 1 = 0 ∧ B (1/2) = 1 :=
  ⟨B_zero, B_one, B_half⟩

/-- C10: every branch value is drawn from the current examples, so each
recursive call receives a non-empty filtered subset (first conjunct, under
the no-`KeyError` condition that every example carries the split attribute);
and on a non-empty example list the engine's result does not depend on the
parent subset at all — the empty-subset fallback that reads the parent (and
would crash on an empty parent) is reachable only when the top-level call
itself receives an empty example list (second conjunct). -/
theorem recursive_subsets_nonempty_and_parent_only_for_empty :
    (∀ (A : String) (examples : List Example) (vk : String),
      (∀ e ∈ examples, (elookup e A).isSome = true) →
      vk ∈ get_attribute_values A examples →
      examples.filter (fun e => decide (elookup e A = some vk)) ≠ []) ∧
    (∀ (α : Type) [LinearOrder α] [DecidableEq α]
      (examples : List Example) (attributes : List String)
      (parent₁ parent₂ : List Example) (imp : String → List Example → α),
      examples ≠ [] →
      decision_tree_learning examples attributes parent₁ imp
        = decision_tree_learning examples attributes parent₂ imp) := by
  constructor
  · intro A examples vk hsome hvk
    rw [get_attribute_values, mem_dedupFirst] at hvk
    obtain ⟨e, he, hev⟩ := List.mem_map.mp hvk
    obtain ⟨w, hw⟩ := Option.isSome_iff_exists.mp (hsome e he)
    have hlook : elookup e A = some vk := by
      rw [hw]
      rw [eget, hw, Option.getD_some] at hev
      rw [hev]
    apply List.ne_nil_of_mem (a := e)
    rw [List.mem_filter]
    exact ⟨he, by rw [hlook]; simp⟩
  · intro α _ _ examples attributes parent₁ parent₂ imp hex
    cases attributes <;> simp [decision_tree_learning, dtlFuel, hex]

/-- Witness for C10: the value `"Full"` observed for `"Patrons"` filters to a
non-empty subset of the restaurant examples, and the engine's output on the
(non-empty) restaurant examples is the same for two different parent
subsets. -/
theorem recursive_subsets_nonempty_and_parent_only_for_empty_witness :
    restaurantExamples.filter
      (fun e => decide (elookup e "Patrons" = some "Full")) ≠ [] ∧
    decision_tree_learning restaurantExamples ["Patrons", "Hungry"] []
      basic_importance
      = decision_tree_learning restaurantExamples ["Patrons", "Hungry"]
          restaurantExamples basic_importance :=
  ⟨recursive_subsets_nonempty_and_parent_only_for_empty.1 "Patrons"
      restaurantExamples "Full" (by decide) (by decide),
   recursive_subsets_nonempty_and_parent_only_for_empty.2 ℕ
      restaurantExamples ["Patrons", "Hungry"] [] restaurantExamples
      basic_importance (by decide)⟩

/-- C5 as stated is false: with the constant selection policy
(`basic_importance`, a legitimate "selection policy" per the spec) every
candidate scores `1`, the stable argmax picks whichever attribute comes
first, and the two candidate orders of the restaurant scenario render
different trees. -/
theorem order_invariance_counterexample :
    renderResult (decision_tree_learning restaurantExamples ["Patrons", "Hungry"]
        restaurantExamples basic_importance)
      ≠ renderResult (decision_tree_learning restaurantExamples ["Hungry", "Patrons"]
        restaurantExamples basic_importance) := by decide

/-- C5 (amended): if the selection policy never assigns equal scores to two
distinct attributes on the same example subset, then supplying the candidate
attributes in a different order (any permutation) yields a tree whose
rendered text is byte-identical. -/
theorem order_invariance_of_tiefree_policy {α : Type} [LinearOrder α] [DecidableEq α]
    (imp : String → List Example → α)
    (hties : ∀ (exs : List Example) (a b : String), imp a exs = imp b exs → a = b)
    (examples parent_examples : List Example) (attrs₁ attrs₂ : List String)
    (hperm : attrs₁.Perm attrs₂) :
    renderResult (decision_tree_learning examples attrs₁ parent_examples imp)
      = renderResult (decision_tree_learning examples attrs₂ parent_examples imp) :=
  congrArg renderResult (dtl_perm_aux imp hties attrs₁.length attrs₁ attrs₂
    examples parent_examples (le_refl _) hperm)

/-- Witness for the amended C5: a policy scoring each attribute by its own
name never ties, and the two orders of the restaurant attributes render
identically. -/
theorem order_invariance_of_tiefree_policy_witness :
    renderResult (decision_tree_learning restaurantExamples ["Patrons", "Hungry"]
        restaurantExamples (fun (a : String) (_ : List Example) => a))
      = renderResult (decision_tree_learning restaurantExamples ["Hungry", "Patrons"]
        restaurantExamples (fun (a : String) (_ : List Example) => a)) :=
  order_invariance_of_tiefree_policy (fun a _ => a) (fun _ _ _ h => h)
    restaurantExamples restaurantExamples ["Patrons", "Hungry"] ["Hungry", "Patrons"]
    (List.Perm.swap "Hungry" "Patrons" [])

/-- C3 as stated is false: `should_prune` hands `scipy.stats.chisquare` a
`ddof` of `k - 1` over `2k` observation cells, so the test's degrees of
freedom are `2k - 1 - (k - 1) = k`, not `k - 1`; at the two-valued attribute
`"Hungry"` the degrees of freedom used are `2`, not `1`. -/
theorem should_prune_dof_counterexample :
    ¬ (chisquareDof (pruneObs "Hungry" restaurantExamples).length
        ((get_attribute_values "Hungry" restaurantExamples).length - 1)
      = (get_attribute_values "Hungry" restaurantExamples).length - 1) := by decide

/-- C3 (amended): for an attribute with `k ≥ 2` distinct values,
`should_prune` performs the chi-squared goodness-of-fit test on the 2×k
observed/expected tables with degrees of freedom equal to `k` (the number of
distinct attribute values — not `k − 1`, since `chisquare` receives `2k`
cells and `ddof = k − 1`), and returns prune exactly when the resulting
p-value exceeds the fixed threshold `0.05`. -/
theorem should_prune_dof_and_decision (sf : ℚ → Nat → ℚ) (attr : String)
    (examples : List Example)
    (h : 2 ≤ (get_attribute_values attr examples).length) :
    chisquareDof (pruneObs attr examples).length
        ((get_attribute_values attr examples).length - 1)
      = (get_attribute_values attr examples).length ∧
    should_prune sf attr examples
      = decide (sf (chisquareStat (pruneObs attr examples) (pruneExp attr examples))
          (get_attribute_values attr examples).length > CUTOFF) := by
  have hdof : chisquareDof (pruneObs attr examples).length
      ((get_attribute_values attr examples).length - 1)
      = (get_attribute_values attr examples).length := by
    rw [pruneObs_length, chisquareDof]
    omega
  exact ⟨hdof, by rw [should_prune, chisquarePValue, hdof]⟩

/-- Witness for the amended C3 at the two-valued attribute `"Hungry"` of the
restaurant examples, with a concrete (constantly zero) survival function. -/
theorem should_prune_dof_and_decision_witness :
    chisquareDof (pruneObs "Hungry" restaurantExamples).length
        ((get_attribute_values "Hungry" restaurantExamples).length - 1) = 2 ∧
    should_prune (fun _ _ => 0) "Hungry" restaurantExamples
      = decide ((fun (_ : ℚ) (_ : Nat) => (0 : ℚ))
          (chisquareStat (pruneObs "Hungry" restaurantExamples)
            (pruneExp "Hungry" restaurantExamples))
          (get_attribute_values "Hungry" restaurantExamples).length > CUTOFF) :=
  ⟨((should_prune_dof_and_decision (fun _ _ => 0) "Hungry" restaurantExamples
      (by decide)).1).trans (by decide),
   (should_prune_dof_and_decision (fun _ _ => 0) "Hungry" restaurantExamples
      (by decide)).2⟩

/-- C7 as stated is false: the lexical error raised at an unmatchable input
position reports the offending character and 1-based line but not the
column — two inputs whose only difference is the column of the offending
character (column 0 versus column 2 of line 1) produce identical error
reports. -/
theorem lexical_error_no_column_counterexample :
    tokenize "!" = tokenize "  !" ∧ tokenize "!" = .error ⟨'!', 1⟩ := by decide

/-- C7 (amended): whenever tokenization fails, it fails at an input position
matched by no recognized lexical pattern, and the fatal error reports that
offending character together with its 1-based line number (one more than the
number of newlines scanned before it); no column offset is part of the
report. -/
theorem lexical_error_reports_char_and_line (s : String) (e : LexError)
    (h : tokenize s = .error e) :
    ∃ q, q < s.data.length ∧ matchToken (s.data.drop q) = none ∧
      e.char = s.data.getD q ' ' ∧ e.line = 1 + (s.data.take q).count '\n' :=
  tokenize_error_report s e h

/-- Witness for the amended C7: the character `'!'` on line 2 of a concrete
input is matched by no pattern and is reported with its line. -/
theorem lexical_error_reports_char_and_line_witness :
    ∃ q, q < ("@relation r\n!" : String).data.length ∧
      matchToken (("@relation r\n!" : String).data.drop q) = none ∧
      (LexError.mk '!' 2).char = ("@relation r\n!" : String).data.getD q ' ' ∧
      (LexError.mk '!' 2).line
        = 1 + (("@relation r\n!" : String).data.take q).count '\n' :=
  lexical_error_reports_char_and_line "@relation r\n!" ⟨'!', 2⟩ (by decide)

/-- C2 as stated is false: a numeric-typed attribute declaration is never
recorded in the Dataset's attribute mapping — the whole parse aborts with the
fatal `Not implemented` structural error instead of producing a Dataset. -/
theorem numeric_attribute_counterexample :
    parseSrc "@relation r\n@attribute age numeric\n@data\n"
      = .error "Not implemented" := by decide

/-- C2 (amended): the reader records exactly the nominal attribute
declarations, in encounter order, each with its parsed value list as domain
(first conjunct, over every well-formed nominal declaration sequence); a
numeric-typed declaration is not supported: the lexer's STRING pattern takes
priority over the numeric-datatype pattern, so `numeric` reaches the reader
as a STRING token (second conjunct) and the reader raises the fatal
`Not implemented` error without recording the attribute (third conjunct). -/
theorem attributes_records_nominals_only (attrs : List (String × List String))
    (rest : Tokens)
    (h1 : ∀ a ∈ attrs, a.2 ≠ []) (h2 : (attrs.map Prod.fst).Nodup)
    (h3 : expectTok "ATTR_DECL" rest = false) :
    Parser.attributes (attrs.flatMap (fun a => attrToks a.1 a.2) ++ rest)
      = .ok (attrs, rest) ∧
    tokenize "@attribute age numeric"
      = .ok [⟨"ATTR_DECL", "@attribute", 1, 0⟩, ⟨"STRING", "age", 1, 11⟩,
          ⟨"STRING", "numeric", 1, 15⟩] ∧
    Parser.attributes [mkTok "ATTR_DECL" "@attribute", mkTok "STRING" "age",
      mkTok "STRING" "numeric"] = .error "Not implemented" := by
  refine ⟨?_, by decide, by decide⟩
  have hattrne : ∀ a ∈ attrs, (fun a => attrToks a.1 a.2) a ≠ [] := by
    intro a ha
    show attrToks a.1 a.2 ≠ []
    obtain ⟨v, vs, he⟩ := List.exists_cons_of_ne_nil (h1 a ha)
    rw [he, attrToks_cons]
    simp
  have hflatlen := le_length_flatMap (fun a => attrToks a.1 a.2) attrs hattrne
  have hspec := attrLoop_spec attrs [] rest
    ((attrs.flatMap (fun a => attrToks a.1 a.2) ++ rest).length + 1) h1
    (by rw [List.length_append]; omega) h3
  have hfold : attrs.foldl (fun d a => odInsert d a.1 a.2) [] = attrs := by
    simpa using foldl_odInsert_fresh attrs [] h2 (by simp)
  rw [hfold] at hspec
  simpa [Parser.attributes] using hspec

/-- Witness for the amended C2 at one concrete nominal declaration. -/
theorem attributes_records_nominals_only_witness :
    Parser.attributes
        (([("Hungry", ["Yes", "No"])].flatMap (fun a => attrToks a.1 a.2))
          ++ [mkTok "DATA_DECL" "@data"])
      = .ok ([("Hungry", ["Yes", "No"])], [mkTok "DATA_DECL" "@data"]) ∧
    tokenize "@attribute age numeric"
      = .ok [⟨"ATTR_DECL", "@attribute", 1, 0⟩, ⟨"STRING", "age", 1, 11⟩,
          ⟨"STRING", "numeric", 1, 15⟩] ∧
    Parser.attributes [mkTok "ATTR_DECL" "@attribute", mkTok "STRING" "age",
      mkTok "STRING" "numeric"] = .error "Not implemented" :=
  attributes_records_nominals_only [("Hungry", ["Yes", "No"])]
    [mkTok "DATA_DECL" "@data"] (by decide) (by decide) (by decide)

/-- C8: a Dataset parsed from well-formed input (nominal declarations with
distinct names and nonempty domains, each data row carrying exactly one
value per declared attribute — all such rows are non-empty) has exactly one
example per data row, and every example holds exactly as many key/value
pairs as there are attributes in the Dataset's mapping. -/
theorem parse_round_trip (rel : String) (attrs : List (String × List String))
    (rows : List (List String))
    (h1 : ∀ a ∈ attrs, a.2 ≠ []) (h2 : (attrs.map Prod.fst).Nodup)
    (h3 : 0 < attrs.length) (h4 : ∀ r ∈ rows, r.length = attrs.length) :
    ∃ d, Parser.parse (arffToks rel attrs rows) = .ok d ∧
      d.examples.length = rows.length ∧
      ∀ ex ∈ d.examples, ex.length = d.attributes.length := by
  refine ⟨⟨rel, attrs, rows.map (fun r => (attrs.map Prod.fst).zip r)⟩,
    parse_spec rel attrs rows h1 h2 h3 h4, by simp, ?_⟩
  intro ex hex
  obtain ⟨r, hr, rfl⟩ := List.mem_map.mp hex
  simp [List.length_zip, h4 r hr]

/-- Witness for C8: a two-attribute, two-row dataset parses to two examples
of two pairs each. -/
theorem parse_round_trip_witness :
    ∃ d, Parser.parse (arffToks "restaurant"
        [("Hungry", ["Yes", "No"]), ("Patrons", ["None", "Some", "Full"])]
        [["Yes", "None"], ["No", "Full"]]) = .ok d ∧
      d.examples.length = 2 ∧
      ∀ ex ∈ d.examples, ex.length = d.attributes.length :=
  parse_round_trip "restaurant"
    [("Hungry", ["Yes", "No"]), ("Patrons", ["None", "Some", "Full"])]
    [["Yes", "None"], ["No", "Full"]]
    (by decide) (by decide) (by decide) (by decide)

end DecisionTrees
